import Mathlib

/-!
# Verification of the EasyBuild build orchestration core (`easybuild/build.py`)

This file gives a shallow embedding of the core of `easybuild/build.py`:
the dependency resolver (`resolveDependencies`, `findResolvedModules`),
the block splitter (`retrieveBlocksInSpec`), and the step-pipeline
executor (`build_easyconfigs` / `perform_step`), together with theorems
about the behaviour of these functions.

Conventions of the embedding:

* A module identifier is a `(name, installversion)` pair of strings,
  matching the Python tuples.
* Python dictionaries representing easyconfigs become the `ECSpec`
  structure.  The in-place mutation of `easyconfig['dependencies']`
  becomes explicit state passing: functions return the updated lists.
* The logger of `easybuild.tools.build_log` is part of the repository
  but its source is not included here.  Modelled from the spec:
  `log.error` raises an `EasyBuildError` which aborts resolution
  ("ResolutionError ... Fatal for the whole batch", "unrecoverable and
  abort the process"), so fallible functions return `Except`.
* External collaborators (the module availability oracle, the robot
  filesystem search composed with `processEasyconfig`, the easyblock
  stage bodies) are parameters of the embedding.
-/

set_option autoImplicit false

instance {ε α : Type} [DecidableEq ε] [DecidableEq α] : DecidableEq (Except ε α) := fun a b =>
  match a, b with
  | .error x, .error y =>
    if h : x = y then .isTrue (by rw [h]) else .isFalse (by intro hc; cases hc; exact h rfl)
  | .error _, .ok _ => .isFalse (by intro hc; cases hc)
  | .ok _, .error _ => .isFalse (by intro hc; cases hc)
  | .ok x, .ok y =>
    if h : x = y then .isTrue (by rw [h]) else .isFalse (by intro hc; cases hc; exact h rfl)

namespace EasyBuild

/-! ## Definitions: shallow embedding of `easybuild/build.py` -/

/-- A module identifier: a `(name, installversion)` pair, as produced by
`(ec.name, ec.get_installversion())` in `processEasyconfig`. -/
abbrev ModuleId := String × String

/-- The easyconfig dictionary built by `processEasyconfig`:
`{'spec': ..., 'module': ..., 'dependencies': [...],
'unresolvedDependencies': copy(dependencies), 'originalSpec': ...}`.
`dependencies` is the working set mutated by `findResolvedModules`;
`unresolvedDependencies` is the frozen copy made at creation time. -/
structure ECSpec where
  spec : String
  module : ModuleId
  dependencies : List ModuleId
  unresolvedDependencies : List ModuleId
  originalSpec : Option String := none
deriving DecidableEq, Repr

/-- Erase the mutable working set of a spec.  A spec enters the ordered
result exactly when its working set has become empty, so the element
appended to `orderedSpecs` is `strip` of the original dictionary. -/
def ECSpec.strip (s : ECSpec) : ECSpec :=
  { s with dependencies := [] }

/-- One scan of `findResolvedModules(unprocessed, processed, log)`:
each spec's `dependencies` are filtered against `processed`; a spec
whose filtered list is empty is appended to the returned ordered list
and its module id is appended to `processed`; the other specs (with
their filtered lists) stay in `unprocessed`.  Returns
`(orderedSpecs, unprocessed after the in-place update, processed)`. -/
def findResolvedModules : List ECSpec → List ModuleId →
    List ECSpec × List ECSpec × List ModuleId
  | [], processed => ([], [], processed)
  | m :: rest, processed =>
    let deps := m.dependencies.filter (fun d => decide (d ∉ processed))
    if deps.isEmpty then
      let r := findResolvedModules rest (processed ++ [m.module])
      ({ m with dependencies := deps } :: r.1, r.2.1, r.2.2)
    else
      let r := findResolvedModules rest processed
      (r.1, { m with dependencies := deps } :: r.2.1, r.2.2)

/-- The inner fixed-point loop of `resolveDependencies`:

```
lastProcessedCount = -1
while len(processed) > lastProcessedCount:
    lastProcessedCount = len(processed)
    orderedSpecs.extend(findResolvedModules(unprocessed, processed, log))
```

`findResolvedModules` is called repeatedly as long as the previous call
grew `processed`.  Returns `(orderedSpecs, unprocessed, processed)`. -/
def resolveFixedPoint : Nat → List ECSpec → List ModuleId →
    List ECSpec × List ECSpec × List ModuleId
  | 0, unprocessed, processed => findResolvedModules unprocessed processed
  | fuel + 1, unprocessed, processed =>
    if processed.length < (findResolvedModules unprocessed processed).2.2.length then
      ((findResolvedModules unprocessed processed).1 ++
          (resolveFixedPoint fuel (findResolvedModules unprocessed processed).2.1
            (findResolvedModules unprocessed processed).2.2).1,
        (resolveFixedPoint fuel (findResolvedModules unprocessed processed).2.1
          (findResolvedModules unprocessed processed).2.2).2.1,
        (resolveFixedPoint fuel (findResolvedModules unprocessed processed).2.1
          (findResolvedModules unprocessed processed).2.2).2.2)
    else
      findResolvedModules unprocessed processed

/-- The inner loop applied with enough fuel: every iteration in which
`processed` grows moves at least one spec out of `unprocessed`, so
`unprocessed.length` recursions always reach the no-growth exit; the
fuel bound never cuts the loop short (`resolveFixedPoint_spec` proves
the exit condition of the Python loop at the returned state). -/
def runFixedPoint (unprocessed : List ECSpec) (processed : List ModuleId) :
    List ECSpec × List ECSpec × List ModuleId :=
  resolveFixedPoint unprocessed.length unprocessed processed

/-- The robot oracle: `robotFindEasyconfig(log, robot, dep)` composed with
`processEasyconfig(path, log, validate=...)`.  Both are external to the
resolver (filesystem search and the opaque spec producer): `none` models
`robotFindEasyconfig` returning `None`, `some specs` models a found
easyconfig file whose blocks produce `specs`. -/
abbrev RobotFn := ModuleId → Option (List ECSpec)

/-- Failures of `resolveDependencies`; each corresponds to a
`log.error` call, which (modelled from the spec) aborts resolution. -/
inductive ResolveError where
  /-- `"Maximum loop cnt %s reached, so quitting."` -/
  | maxLoopReached : ResolveError
  /-- `"easyconfig file %s does not contain module %s"` -/
  | moduleNotInSpecs (m : ModuleId) : ResolveError
  /-- `"Dependencies not met. Cannot resolve %s"` with the keys of the
  `missingDependencies` dictionary. -/
  | depsNotMet (missing : List ModuleId) : ResolveError
deriving DecidableEq, Repr

/-- One robot scan (the `for module in unprocessed:` loop of
`resolveDependencies`): for each unprocessed spec in scan order, the
candidates are its dependencies not being installed in the current run;
if there is a candidate, the robot is asked for the first one; the first
spec for which the robot finds an easyconfig stops the scan (the
Python `break`), checking that the found easyconfig contains the
module.  If no spec yields a find, the scan returns `none`. -/
def robotPass (rf : RobotFn) (beingInstalled : List ModuleId) :
    List ECSpec → Except ResolveError (Option (ModuleId × List ECSpec))
  | [] => .ok none
  | m :: rest =>
    let candidates := m.dependencies.filter (fun d => decide (d ∉ beingInstalled))
    match candidates with
    | [] => robotPass rf beingInstalled rest
    | c :: _ =>
      match rf c with
      | none => robotPass rf beingInstalled rest
      | some newSpecs =>
        if c ∈ newSpecs.map (·.module) then .ok (some (c, newSpecs))
        else .error (.moduleNotInSpecs c)

/-- The outer `while robotAddedDependency:` loop of
`resolveDependencies`.  The Python loop increments `loopcnt` at the top
of every iteration and raises a fatal error when it exceeds
`maxloopcnt`; `fuel` is `maxloopcnt - loopcnt`, the number of
iterations still allowed: entering an iteration with no fuel left is
exactly `loopcnt > maxloopcnt`, the fatal error.  Each iteration runs
the fixed-point pass; if a robot is configured and specs remain, one
robot scan runs, and a successful find extends `unprocessed` and
restarts the loop. -/
def resolveLoop (rfo : Option RobotFn) : Nat → List ECSpec → List ModuleId →
    List ECSpec → Except ResolveError (List ECSpec × List ECSpec × List ModuleId)
  | 0, _, _, _ => .error .maxLoopReached
  | fuel + 1, unprocessed, processed, ordered =>
    match rfo with
    | none =>
      .ok (ordered ++ (runFixedPoint unprocessed processed).1,
        (runFixedPoint unprocessed processed).2.1,
        (runFixedPoint unprocessed processed).2.2)
    | some rf =>
      if 0 < (runFixedPoint unprocessed processed).2.1.length then
        match robotPass rf ((runFixedPoint unprocessed processed).2.1.map (·.module))
            (runFixedPoint unprocessed processed).2.1 with
        | .error e => .error e
        | .ok none =>
          .ok (ordered ++ (runFixedPoint unprocessed processed).1,
            (runFixedPoint unprocessed processed).2.1,
            (runFixedPoint unprocessed processed).2.2)
        | .ok (some (_, newSpecs)) =>
          resolveLoop rfo fuel
            ((runFixedPoint unprocessed processed).2.1 ++ newSpecs)
            (runFixedPoint unprocessed processed).2.2
            (ordered ++ (runFixedPoint unprocessed processed).1)
      else
        .ok (ordered ++ (runFixedPoint unprocessed processed).1,
          (runFixedPoint unprocessed processed).2.1,
          (runFixedPoint unprocessed processed).2.2)

/-- `resolveDependencies` up to (but not including) the final
`len(unprocessed) > 0` check: seeds `processed` with the available
modules minus the modules being installed in this run, and runs the
outer loop with the hard cap `maxloopcnt = 10000` (that is, `loopcnt`
starting at `0` and `10000` iterations allowed).  `availableModules`
stands for `Modules().available()` (or `[]` when `force` is set). -/
def resolveState (unprocessed : List ECSpec) (rfo : Option RobotFn)
    (availableModules : List ModuleId) :
    Except ResolveError (List ECSpec × List ECSpec × List ModuleId) :=
  let beingInstalled := unprocessed.map (·.module)
  let processed := availableModules.filter (fun m => decide (m ∉ beingInstalled))
  resolveLoop rfo 10000 unprocessed processed []

/-- Python `dict` keys in insertion order: deduplication keeping the
first occurrence (the `missingDependencies` dictionary). -/
def pyDictKeys (l : List ModuleId) : List ModuleId :=
  l.foldl (fun acc d => if d ∈ acc then acc else acc ++ [d]) []

/-- `resolveDependencies(unprocessed, robot, log, force)`: runs the
outer loop and, if unprocessed specs remain, fails with the missing
dependency set collected from all remaining specs; otherwise returns
the ordered spec list. -/
def resolveDependencies (unprocessed : List ECSpec) (rfo : Option RobotFn)
    (availableModules : List ModuleId) : Except ResolveError (List ECSpec) :=
  match resolveState unprocessed rfo availableModules with
  | .error e => .error e
  | .ok (ordered, rem, _) =>
    if 0 < rem.length then
      .error (.depsNotMet (pyDictKeys ((rem.map (·.dependencies)).flatten)))
    else .ok ordered

/-- `DepsOK u p`: every original dependency of an unprocessed spec is
either still in its working set or has already been satisfied (is in
`p`).  This holds for freshly created specs (where
`unresolvedDependencies = dependencies`) and is preserved by the
stripping done in `findResolvedModules`. -/
def DepsOK (u : List ECSpec) (p : List ModuleId) : Prop :=
  ∀ m ∈ u, ∀ d ∈ m.unresolvedDependencies, d ∈ m.dependencies ∨ d ∈ p

/-- `Chain p l`: the specs of `l` form a valid build order relative to
the already-satisfied module set `p`: each spec's original dependencies
are covered by `p` extended with the modules of the specs before it. -/
inductive Chain : List ModuleId → List ECSpec → Prop
  | nil (p : List ModuleId) : Chain p []
  | cons (p : List ModuleId) (s : ECSpec) (l : List ECSpec)
      (hs : ∀ d ∈ s.unresolvedDependencies, d ∈ p)
      (hl : Chain (p ++ [s.module]) l) : Chain p (s :: l)

/-- The first dependency of `m` not being installed in the current run
(`candidates[0]` in the Python source), if any. -/
def firstCandidate (beingInstalled : List ModuleId) (m : ECSpec) : Option ModuleId :=
  (m.dependencies.filter (fun d => decide (d ∉ beingInstalled))).head?

/-- The robot query for spec `m` does not yield an expansion: either
`m` has no candidate dependency, or the robot finds nothing for the
first candidate. -/
def robotQueryFails (rf : RobotFn) (beingInstalled : List ModuleId) (m : ECSpec) : Prop :=
  match firstCandidate beingInstalled m with
  | none => True
  | some c => rf c = none

instance (rf : RobotFn) (B : List ModuleId) (m : ECSpec) :
    Decidable (robotQueryFails rf B m) := by
  unfold robotQueryFails
  cases firstCandidate B m with
  | none => exact inferInstanceAs (Decidable True)
  | some c => exact inferInstanceAs (Decidable (rf c = none))

/-- Modelled from the spec, for comparison with the code's `robotPass`
(claim C4's reading of the expansion pass): "select the first
unprocessed spec with at least one dependency unsatisfiable within the
current run; ask the locator for a spec satisfying that single
dependency; ... on failure, stop the outer loop."  Under this reading a
locator miss for the selected spec ends the scan immediately. -/
def robotPassFirstOnly (rf : RobotFn) (beingInstalled : List ModuleId) :
    List ECSpec → Except ResolveError (Option (ModuleId × List ECSpec))
  | [] => .ok none
  | m :: rest =>
    match m.dependencies.filter (fun d => decide (d ∉ beingInstalled)) with
    | [] => robotPassFirstOnly rf beingInstalled rest
    | c :: _ =>
      match rf c with
      | none => .ok none
      | some newSpecs =>
        if c ∈ newSpecs.map (·.module) then .ok (some (c, newSpecs))
        else .error (.moduleNotInSpecs c)

/-- The outer loop with the claim-C4 expansion pass substituted. -/
def resolveLoopFirstOnly (rfo : Option RobotFn) : Nat → List ECSpec → List ModuleId →
    List ECSpec → Except ResolveError (List ECSpec × List ECSpec × List ModuleId)
  | 0, _, _, _ => .error .maxLoopReached
  | fuel + 1, unprocessed, processed, ordered =>
    match rfo with
    | none =>
      .ok (ordered ++ (runFixedPoint unprocessed processed).1,
        (runFixedPoint unprocessed processed).2.1,
        (runFixedPoint unprocessed processed).2.2)
    | some rf =>
      if 0 < (runFixedPoint unprocessed processed).2.1.length then
        match robotPassFirstOnly rf ((runFixedPoint unprocessed processed).2.1.map (·.module))
            (runFixedPoint unprocessed processed).2.1 with
        | .error e => .error e
        | .ok none =>
          .ok (ordered ++ (runFixedPoint unprocessed processed).1,
            (runFixedPoint unprocessed processed).2.1,
            (runFixedPoint unprocessed processed).2.2)
        | .ok (some (_, newSpecs)) =>
          resolveLoopFirstOnly rfo fuel
            ((runFixedPoint unprocessed processed).2.1 ++ newSpecs)
            (runFixedPoint unprocessed processed).2.2
            (ordered ++ (runFixedPoint unprocessed processed).1)
      else
        .ok (ordered ++ (runFixedPoint unprocessed processed).1,
          (runFixedPoint unprocessed processed).2.1,
          (runFixedPoint unprocessed processed).2.2)

/-- `resolveDependencies` with the claim-C4 expansion pass substituted. -/
def resolveDependenciesFirstOnly (unprocessed : List ECSpec) (rfo : Option RobotFn)
    (availableModules : List ModuleId) : Except ResolveError (List ECSpec) :=
  match resolveLoopFirstOnly rfo 10000 unprocessed
      (availableModules.filter
        (fun m => decide (m ∉ unprocessed.map (·.module)))) [] with
  | .error e => .error e
  | .ok (ordered, rem, _) =>
    if 0 < rem.length then
      .error (.depsNotMet (pyDictKeys ((rem.map (·.dependencies)).flatten)))
    else .ok ordered

/-- Version string of the `n`-th module of the endless chain. -/
def chainVer (n : Nat) : String := String.mk (List.replicate n 'x')

/-- Module id of the `n`-th module of the endless chain. -/
def chainMod (n : Nat) : ModuleId := ("x", chainVer n)

/-- A spec for module `m` that depends on a module with one more `x`
appended to the version. -/
def chainSpec (m : ModuleId) : ECSpec :=
  ⟨m.2, m, [(m.1, m.2 ++ "x")], [(m.1, m.2 ++ "x")], none⟩

/-- A robot that answers every query with a fresh spec whose single
dependency is again unknown: resolution can never converge. -/
def chainRobot : RobotFn := fun m => some [chainSpec m]

/-- The unprocessed list after `k` robot expansions starting from
`[chainSpec (chainMod 0)]`. -/
def chainList (k : Nat) : List ECSpec :=
  (List.range (k + 1)).map (fun i => chainSpec (chainMod i))

/-- The spec files removed by `main`'s post-build cleanup loop:

```
for easyconfig in easyconfigs:
    if 'originalSpec' in easyconfig:
        os.remove(easyconfig['spec'])
```

applied to whatever list the name `easyconfigs` refers to after the
build — the same list object that `resolveDependencies` and
`findResolvedModules` mutated in place (modelled by the `unprocessed`
component of `resolveState`'s result). -/
def mainCleanupSpecs (easyconfigs : List ECSpec) : List String :=
  (easyconfigs.filter (fun ec => ec.originalSpec.isSome)).map (·.spec)

/-- Strip leading and trailing whitespace (the `\s*` anchors of the
line-anchored patterns). -/
def trimChars (cs : List Char) : List Char :=
  ((cs.dropWhile Char.isWhitespace).reverse.dropWhile Char.isWhitespace).reverse

/-- A character matched by `[\w.-]` in the block-header regular
expression (Python 2 `\w` without `re.UNICODE`: letters, digits,
underscore). -/
def isBlockNameChar (c : Char) : Bool :=
  c.isAlphanum || c == '_' || c == '.' || c == '-'

/-- Does a line match `^\s*\[([\w.-]+)\]\s*$` (the `regBlock`
pattern)?  If so, return the captured block name.  The spec text is
modelled at line granularity: `re.split` with this multiline pattern
cuts the file exactly at such lines. -/
def parseHeader (line : String) : Option String :=
  match trimChars line.toList with
  | '[' :: rest =>
    match rest.reverse with
    | ']' :: midRev =>
      if midRev ≠ [] ∧ midRev.all isBlockNameChar then some (String.mk midRev.reverse)
      else none
    | _ => none
  | _ => none

/-- `regBlock.split(text)` at line granularity: returns the common
prefix (lines before the first header) and, for each header in order,
the pair (block name, lines until the next header). -/
def splitBlocksAux : List String → List String × List (String × List String)
  | [] => ([], [])
  | l :: rest =>
    match parseHeader l with
    | some name => ([], (name, (splitBlocksAux rest).1) :: (splitBlocksAux rest).2)
    | none => (l :: (splitBlocksAux rest).1, (splitBlocksAux rest).2)

/-- Does a line match `^\s*block\s*=(\s*.*?)\s*$` (the `regDepBlock`
pattern)?  If so, return the captured group: the text after `=` with
trailing whitespace stripped and leading whitespace kept. -/
def parseDepLine (line : String) : Option String :=
  match trimChars line.toList with
  | 'b' :: 'l' :: 'o' :: 'c' :: 'k' :: rest =>
    match rest.dropWhile Char.isWhitespace with
    | '=' :: rhs => some (String.mk rhs)
    | _ => none
  | _ => none

/-- Parse a Python string literal (a quote character, plain content
without escapes, the same quote character); returns the content and the
remaining characters. -/
def parseStringLit : List Char → Option (String × List Char)
  | [] => none
  | q :: rest =>
    if q = '\'' ∨ q = '"' then
      match rest.dropWhile (· ≠ q) with
      | _ :: tail => some (String.mk (rest.takeWhile (· ≠ q)), tail)
      | [] => none
    else none

/-- Parse the comma-separated string literals of a Python list display. -/
def parseListItems : Nat → List Char → Option (List String × List Char)
  | 0, _ => none
  | fuel + 1, cs =>
    match parseStringLit cs with
    | none => none
    | some (s, rest) =>
      match rest.dropWhile Char.isWhitespace with
      | ',' :: tail =>
        match parseListItems fuel (tail.dropWhile Char.isWhitespace) with
        | some (items, r) => some (s :: items, r)
        | none => none
      | other => some ([s], other)

/-- Models `eval` applied to the captured group of `regDepBlock`, and
the subsequent `type(dependencies) == list` wrapping, on the literal
forms the spec describes (`block = <list-or-scalar literal>`): a quoted
string or a list display of quoted strings.  Leading whitespace in the
evaluated text is a Python `eval` error (unexpected indent), and any
other shape is treated as a failed evaluation. -/
def evalPyLiteral (s : String) : Option (List String) :=
  match s.toList with
  | [] => none
  | c :: _ =>
    if c.isWhitespace then none
    else
      match s.toList with
      | '[' :: rest =>
        match rest.dropWhile Char.isWhitespace with
        | ']' :: tail =>
          if (tail.dropWhile Char.isWhitespace).isEmpty then some [] else none
        | r =>
          match parseListItems r.length r with
          | some (items, rest') =>
            match rest' with
            | ']' :: tail =>
              if (tail.dropWhile Char.isWhitespace).isEmpty then some items else none
            | _ => none
          | none => none
      | cs =>
        match parseStringLit cs with
        | some (lit, rest) =>
          if (rest.dropWhile Char.isWhitespace).isEmpty then some [lit] else none
        | none => none

/-- One block of a spec source: name, content lines, and the declared
prerequisite blocks (the `block = ...` line), if any. -/
structure SpecBlock where
  name : String
  contents : List String
  dependencies : Option (List String)
deriving DecidableEq, Repr

/-- `regDepBlock.search(blockContents)`: the first line declaring
prerequisites, evaluated.  A declaration that cannot be evaluated is a
fatal load error. -/
def extractDeps (contents : List String) : Except String (Option (List String)) :=
  match contents.findSome? parseDepLine with
  | none => .ok none
  | some rhs =>
    match evalPyLiteral rhs with
    | some deps => .ok (some deps)
    | none => .error "failed to evaluate block dependencies"

/-- The `while pieces:` loop building the list of blocks: a block name
seen twice is fatal; each block's prerequisite declaration is parsed. -/
def mkBlocks (acc : List SpecBlock) : List (String × List String) → Except String (List SpecBlock)
  | [] => .ok acc
  | (name, contents) :: rest =>
    if name ∈ acc.map (·.name) then .error ("Found block " ++ name ++ " twice.")
    else
      match extractDeps contents with
      | .error e => .error e
      | .ok deps => mkBlocks (acc ++ [⟨name, contents, deps⟩]) rest

/-- The `"\n# Dependency block %s"` marker written before a
prerequisite block's contents. -/
def depMarkerLine (n : String) : String := "# Dependency block " ++ n

/-- The `"\n# Main block %s"` marker written before a block's own
contents. -/
def mainMarkerLine (n : String) : String := "# Main block " ++ n

/-- `[b for b in blocks if b['name'] == dep][0]`, guarded by the
membership check. -/
def lookupBlock (blocks : List SpecBlock) (d : String) : Option SpecBlock :=
  blocks.find? (fun b => b.name == d)

/-- Write the prerequisite blocks' contents in declared order; a
declared prerequisite with no matching sibling block is fatal. -/
def depsContent (blocks : List SpecBlock) : List String → Except String (List String)
  | [] => .ok []
  | d :: ds =>
    match lookupBlock blocks d with
    | none => .error ("Block depends on " ++ d ++ ", but block was not found.")
    | some db =>
      match depsContent blocks ds with
      | .error e => .error e
      | .ok rest => .ok (depMarkerLine db.name :: db.contents ++ rest)

/-- The full content written to the temporary spec file for one block:
the common prelude, each prerequisite block's contents (in declared
order, with its marker line), then the block's own contents. -/
def blockContent (common : List String) (allBlocks : List SpecBlock) (b : SpecBlock) :
    Except String (List String) :=
  match b.dependencies with
  | none => .ok (common ++ (mainMarkerLine b.name :: b.contents))
  | some ds =>
    match depsContent allBlocks ds with
    | .error e => .error e
    | .ok dc => .ok (common ++ dc ++ (mainMarkerLine b.name :: b.contents))

/-- `if onlyBlocks and not (name in onlyBlocks)` — an empty allow-list
(Python `None` or `[]`, both falsy) keeps every block. -/
def keepBlock (onlyBlocks : List String) (name : String) : Bool :=
  onlyBlocks.isEmpty || onlyBlocks.contains name

/-- A spec file as returned by `retrieveBlocksInSpec`: the original
input file (no blocks present) or a synthesized temporary file for one
block. -/
inductive SpecFile where
  | original : SpecFile
  | generated (name : String) (contents : List String) : SpecFile
deriving DecidableEq, Repr

/-- The `for block in blocks:` synthesis loop. -/
def synthesizeBlocks (common : List String) (allBlocks : List SpecBlock)
    (onlyBlocks : List String) : List SpecBlock → Except String (List SpecFile)
  | [] => .ok []
  | b :: bs =>
    if keepBlock onlyBlocks b.name then
      match blockContent common allBlocks b with
      | .error e => .error e
      | .ok content =>
        match synthesizeBlocks common allBlocks onlyBlocks bs with
        | .error e => .error e
        | .ok rest => .ok (SpecFile.generated b.name content :: rest)
    else synthesizeBlocks common allBlocks onlyBlocks bs

/-- `retrieveBlocksInSpec(spec, log, onlyBlocks)` on the spec source
given as its list of lines: no block headers, return the original spec
unchanged; otherwise build the block table and synthesize one spec per
retained block. -/
def retrieveBlocksInSpec (lines : List String) (onlyBlocks : List String) :
    Except String (List SpecFile) :=
  if (splitBlocksAux lines).2.isEmpty then .ok [SpecFile.original]
  else
    match mkBlocks [] (splitBlocksAux lines).2 with
    | .error e => .error e
    | .ok blocks => synthesizeBlocks (splitBlocksAux lines).1 blocks onlyBlocks blocks

/-- The process environment, `os.environ`, as a list of bindings. -/
abbrev Env := List (String × String)

/-- A key of the `build_stopped` dictionary: spec paths (for
initialization failures) and application instances (for stage
failures) are used as keys; instances are identified by a number. -/
inductive StepKey where
  | spec (s : String) : StepKey
  | app (a : Nat) : StepKey
deriving DecidableEq, Repr

/-- One entry of `test_results`:
`(instance-or-spec, step name, error text, log file)`. -/
structure FailRecord where
  obj : StepKey
  step : String
  err : String
  logfile : String
deriving DecidableEq, Repr

/-- The external collaborators of `build_easyconfigs`:
`parbuild.get_instance` (may fail), the easyblock stage bodies (which
may mutate the process environment and may raise), `app.cfg['tests']`,
`options.skip_test_cases`, and the log file names. -/
structure PipelineEnv where
  getInstance : String → Except String Nat
  runStep : Nat → Nat → Env → Env × Option String
  hasTests : Nat → Bool
  skipTestCases : Bool
  appLog : Nat → String
  mainLog : String

/-- The mutable state threaded through `build_easyconfigs`:
`build_stopped`, `test_results`, the process environment and working
directory, the observed (cwd, env) at the start of each instance's
build (after the per-instance reset), and the `succes` list. -/
structure PipeState where
  stopped : List StepKey
  results : List FailRecord
  env : Env
  cwd : String
  startStates : List (String × Env)
  successes : List Nat
deriving Repr

/-- The fixed sequence of `perform_step` calls in `build_easyconfigs`,
in source order: the step name passed to `perform_step` and an index
identifying which method of the instance is invoked.  Note that
`checksum_step` and `extract_step` are both reported as `"unpacking"`. -/
def stageList : List (String × Nat) :=
  [("fetching files", 0), ("check readiness", 1), ("generate installdir name", 2),
   ("make builddir", 3), ("unpacking", 4), ("unpacking", 5), ("patching", 6),
   ("prepare", 7), ("configure", 8), ("make", 9), ("test", 10), ("stage install", 11),
   ("create installdir", 12), ("make install", 13), ("extensions", 14), ("package", 15),
   ("postproc", 16), ("sanity check", 17), ("cleanup", 18), ("make module", 19)]

/-- `perform_step('initialization', ec, None, log)`: if the spec is not
halted, run `parbuild.get_instance`; on failure the record references
the spec path (`obj = obj['spec']`) and the spec is marked halted.
The Python guard `(type(obj) == dict and obj['spec'] not in
build_stopped) or obj not in build_stopped` is, for a dict, the
spec-path check. -/
def perform_step_init (penv : PipelineEnv) (specPath : String) (st : PipeState) :
    Option Nat × PipeState :=
  if StepKey.spec specPath ∈ st.stopped then (none, st)
  else
    match penv.getInstance specPath with
    | .ok a => (some a, st)
    | .error err =>
      (none, { st with
        results := st.results ++ [⟨.spec specPath, "initialization", err, penv.mainLog⟩],
        stopped := st.stopped ++ [.spec specPath] })

/-- `perform_step(step, app, method, applog)` for a non-initialization
step: skipped if the instance is halted; otherwise the stage body runs
(possibly mutating the environment); an exception appends a record and
halts the instance. -/
def perform_step_app (penv : PipelineEnv) (step : String) (a : Nat) (methodIdx : Nat)
    (logfile : String) (st : PipeState) : PipeState :=
  if StepKey.app a ∈ st.stopped then st
  else
    match penv.runStep a methodIdx st.env with
    | (env', none) => { st with env := env' }
    | (env', some err) =>
      { st with
        env := env',
        results := st.results ++ [⟨.app a, step, err, logfile⟩],
        stopped := st.stopped ++ [.app a] }

/-- The twenty manual `perform_step` calls for one instance. -/
def runStages (penv : PipelineEnv) (a : Nat) (st : PipeState) : PipeState :=
  stageList.foldl (fun s pr => perform_step_app penv pr.1 a pr.2 (penv.appLog a) s) st

/-- All stages of one instance, including the conditional
`test cases` step (`if not options.skip_test_cases and
app.cfg['tests']`, method index 20). -/
def runApp (penv : PipelineEnv) (a : Nat) (st : PipeState) : PipeState :=
  if !penv.skipTestCases && penv.hasTests a then
    perform_step_app penv "test cases" a 20 (penv.appLog a) (runStages penv a st)
  else runStages penv a st

/-- `if app not in build_stopped: succes.append((app, buildstats))` —
the stats themselves are external measurements and are not modelled. -/
def collectSuccess (a : Nat) (st : PipeState) : PipeState :=
  if StepKey.app a ∈ st.stopped then st
  else { st with successes := st.successes ++ [a] }

/-- One iteration of the `for app in apps:` loop: skipped when the
initialization failed (`app` is `None`); otherwise
`os.chdir(base_dir)` and `modifyEnv(os.environ, base_env)` reset the
working directory and environment to the snapshots (modelled from the
spec: `filetools.modifyEnv` is external and "restore[s] the process
environment to a baseline snapshot"), the post-reset (cwd, env) is
recorded, the stages run, and a non-halted instance is collected as a
success. -/
def processApp (penv : PipelineEnv) (baseDir : String) (baseEnv : Env) (st : PipeState) :
    Option Nat → PipeState
  | none => st
  | some a =>
    collectSuccess a (runApp penv a
      { st with
        cwd := baseDir,
        env := baseEnv,
        startStates := st.startStates ++ [(baseDir, baseEnv)] })

/-- The initialization phase: `apps = [perform_step('initialization',
ec, None, log) for ec in easyconfigs]` with the threaded state. -/
def initApps (penv : PipelineEnv) : List String → PipeState → List (Option Nat) × PipeState
  | [], st => ([], st)
  | ec :: rest, st =>
    ((perform_step_init penv ec st).1 ::
        (initApps penv rest (perform_step_init penv ec st).2).1,
      (initApps penv rest (perform_step_init penv ec st).2).2)

/-- The `for app in apps:` loop. -/
def buildLoop (penv : PipelineEnv) (baseDir : String) (baseEnv : Env) :
    List (Option Nat) → PipeState → PipeState
  | [], st => st
  | oa :: rest, st => buildLoop penv baseDir baseEnv rest (processApp penv baseDir baseEnv st oa)

/-- `build_easyconfigs(easyconfigs, output_dir, test_results, options,
log)`: initialize all instances, capture `base_dir = os.getcwd()` and
`base_env = copy.deepcopy(os.environ)` once, then drive every instance
through the stage sequence.  Returns the `apps` list and the final
state. -/
def build_easyconfigs (penv : PipelineEnv) (ecs : List String) (st : PipeState) :
    List (Option Nat) × PipeState :=
  ((initApps penv ecs st).1,
    buildLoop penv (initApps penv ecs st).2.cwd (initApps penv ecs st).2.env
      (initApps penv ecs st).1 (initApps penv ecs st).2)

/-- Concrete scenario for the expansion pass: two specs whose
dependencies are unknown; the robot finds nothing for the first spec's
candidate and an easyconfig for the second spec's candidate. -/
def c4dep1 : ModuleId := ("d1", "1")

def c4dep2 : ModuleId := ("d2", "1")

def c4spec1 : ECSpec := ⟨"s1.eb", ("s1", "1"), [c4dep1], [c4dep1], none⟩

def c4spec2 : ECSpec := ⟨"s2.eb", ("s2", "1"), [c4dep2], [c4dep2], none⟩

def c4found : ECSpec := ⟨"d2.eb", c4dep2, [], [], none⟩

def c4robot : RobotFn := fun m => if m = c4dep2 then some [c4found] else none

/-- Counterexample inputs for the claim that every dependency of a
placed spec is either "externally available and not scheduled for
install in this run" or placed earlier: `cxTop` depends on `cxCmod`
(unknown, found by the robot) and `cxYmod` (available); the robot's
easyconfig for `cxCmod` carries a second block spec that schedules the
available module `cxYmod` for rebuild. -/
def cxTopMod : ModuleId := ("s", "1")

def cxCmod : ModuleId := ("c", "1")

def cxYmod : ModuleId := ("y", "1")

def cxTop : ECSpec := ⟨"s.eb", cxTopMod, [cxCmod, cxYmod], [cxCmod, cxYmod], none⟩

def cxYspec : ECSpec := ⟨"y.eb", cxYmod, [cxCmod], [cxCmod], none⟩

def cxCspec : ECSpec := ⟨"c.eb", cxCmod, [], [], none⟩

def cxRobot : RobotFn := fun m => if m = cxCmod then some [cxYspec, cxCspec] else none

def wA : ECSpec := ⟨"a.eb", ("a", "1"), [], [], none⟩

def wB : ECSpec := ⟨"b.eb", ("b", "1"), [("a", "1")], [("a", "1")], none⟩

def wF : ECSpec := ⟨"f.eb", ("f", "1"), [("x", "1"), ("z", "1")], [("x", "1"), ("z", "1")], none⟩

def wG : ECSpec := ⟨"g.eb", ("g", "1"), [("z", "1")], [("z", "1")], none⟩

def instW : String → Nat := fun s => if s = "p1" then 1 else if s = "p2" then 2 else 3

def wPenv : PipelineEnv where
  getInstance := fun s => .ok (instW s)
  runStep := fun a k env => (env, if a = 2 ∧ 8 ≤ k then some "configure failed" else none)
  hasTests := fun _ => false
  skipTestCases := false
  appLog := fun a => if a = 1 then "app1.log" else if a = 2 then "app2.log" else "app3.log"
  mainLog := "main.log"

def wPenv2 : PipelineEnv where
  getInstance := fun s => if s = "p2" then .error "no instance" else .ok (instW s)
  runStep := fun _ _ env => (env, none)
  hasTests := fun _ => false
  skipTestCases := false
  appLog := fun a => if a = 1 then "app1.log" else if a = 2 then "app2.log" else "app3.log"
  mainLog := "main.log"

def wSt : PipeState := ⟨[], [], [("PATH", "/bin")], "/base", [], []⟩

def c2L1 : List (String × Nat) :=
  [("fetching files", 0), ("check readiness", 1), ("generate installdir name", 2),
   ("make builddir", 3), ("unpacking", 4), ("unpacking", 5), ("patching", 6),
   ("prepare", 7)]

def c2L2 : List (String × Nat) :=
  [("make", 9), ("test", 10), ("stage install", 11),
   ("create installdir", 12), ("make install", 13), ("extensions", 14), ("package", 15),
   ("postproc", 16), ("sanity check", 17), ("cleanup", 18), ("make module", 19)]

def wLines : List String :=
  ["common1", "[A]", "contA", "[B]", "block=['A']", "contB"]

def wBlockA : SpecBlock := ⟨"A", ["contA"], none⟩

def wBlockB : SpecBlock := ⟨"B", ["block=['A']", "contB"], some ["A"]⟩

def wResult : List SpecFile :=
  [.generated "A" ["common1", "# Main block A", "contA"],
   .generated "B" ["common1", "# Dependency block A", "contA", "# Main block B",
     "block=['A']", "contB"]]

/-! ## Theorems -/

theorem findResolvedModules_processed_eq (u : List ECSpec) :
    ∀ (p : List ModuleId),
      (findResolvedModules u p).2.2 = p ++ ((findResolvedModules u p).1).map (·.module) := by
  induction u with
  | nil => intro p; simp [findResolvedModules]
  | cons m rest ih =>
    intro p
    by_cases h : (m.dependencies.filter (fun d => decide (d ∉ p))).isEmpty
    · simp only [findResolvedModules, if_pos h]
      rw [ih]
      simp
    · simp only [findResolvedModules, if_neg h]
      exact ih p

theorem findResolvedModules_length (u : List ECSpec) :
    ∀ (p : List ModuleId),
      (findResolvedModules u p).1.length + (findResolvedModules u p).2.1.length = u.length := by
  induction u with
  | nil => intro p; simp [findResolvedModules]
  | cons m rest ih =>
    intro p
    by_cases h : (m.dependencies.filter (fun d => decide (d ∉ p))).isEmpty
    · simp only [findResolvedModules, if_pos h, List.length_cons]
      have := ih (p ++ [m.module])
      omega
    · simp only [findResolvedModules, if_neg h, List.length_cons]
      have := ih p
      omega

theorem DepsOK.mono {u : List ECSpec} {p p' : List ModuleId}
    (h : DepsOK u p) (hsub : p ⊆ p') : DepsOK u p' := by
  intro m hm d hd
  rcases h m hm d hd with h1 | h1
  · exact Or.inl h1
  · exact Or.inr (hsub h1)

theorem Chain.append {p : List ModuleId} {a b : List ECSpec}
    (ha : Chain p a) (hb : Chain (p ++ a.map (·.module)) b) : Chain p (a ++ b) := by
  induction ha with
  | nil p => simpa using hb
  | cons p s l hs hl ih =>
    refine Chain.cons p s (l ++ b) hs (ih ?_)
    simpa [List.append_assoc] using hb

theorem ECSpec.strip_eq_self {s : ECSpec} (h : s.dependencies = []) : s.strip = s := by
  cases s
  simp_all [ECSpec.strip]

theorem findResolvedModules_chain (u : List ECSpec) :
    ∀ p, DepsOK u p → Chain p (findResolvedModules u p).1 := by
  induction u with
  | nil => intro p _; exact Chain.nil p
  | cons m rest ih =>
    intro p hok
    have hokrest : DepsOK rest p := fun s hs => hok s (List.mem_cons_of_mem m hs)
    by_cases h : (m.dependencies.filter (fun d => decide (d ∉ p))).isEmpty
    · simp only [findResolvedModules, if_pos h]
      have hmem : ∀ d ∈ m.dependencies, d ∈ p := by
        intro d hd
        rw [List.isEmpty_iff] at h
        by_contra hdp
        have hin : d ∈ m.dependencies.filter (fun d => decide (d ∉ p)) :=
          List.mem_filter.mpr ⟨hd, by simpa using hdp⟩
        rw [h] at hin
        simp at hin
      refine Chain.cons p _ _ ?_ ?_
      · intro d hd
        rcases hok m (List.mem_cons_self m rest) d hd with h1 | h1
        · exact hmem d h1
        · exact h1
      · exact ih (p ++ [m.module]) (hokrest.mono (List.subset_append_left p [m.module]))
    · simp only [findResolvedModules, if_neg h]
      exact ih p hokrest

theorem findResolvedModules_depsOK (u : List ECSpec) :
    ∀ p, DepsOK u p → DepsOK (findResolvedModules u p).2.1 (findResolvedModules u p).2.2 := by
  induction u with
  | nil => intro p _; intro m hm; simp [findResolvedModules] at hm
  | cons m rest ih =>
    intro p hok
    have hokrest : DepsOK rest p := fun s hs => hok s (List.mem_cons_of_mem m hs)
    by_cases h : (m.dependencies.filter (fun d => decide (d ∉ p))).isEmpty
    · simp only [findResolvedModules, if_pos h]
      exact ih (p ++ [m.module]) (hokrest.mono (List.subset_append_left p [m.module]))
    · simp only [findResolvedModules, if_neg h]
      intro s hs d hd
      rcases List.mem_cons.mp hs with rfl | hs'
      · simp only at hd ⊢
        rcases hok m (List.mem_cons_self m rest) d hd with h1 | h1
        · by_cases hdp : d ∈ p
          · refine Or.inr ?_
            have := findResolvedModules_processed_eq rest p
            rw [this]
            exact List.mem_append_left _ hdp
          · refine Or.inl ?_
            rw [List.mem_filter]
            exact ⟨h1, by simpa using hdp⟩
        · refine Or.inr ?_
          have := findResolvedModules_processed_eq rest p
          rw [this]
          exact List.mem_append_left _ h1
      · exact ih p hokrest s hs' d hd

theorem ECSpec.strip_set_deps (m : ECSpec) (l : List ModuleId) :
    ECSpec.strip { m with dependencies := l } = ECSpec.strip m := rfl

theorem findResolvedModules_perm (u : List ECSpec) :
    ∀ p, (((findResolvedModules u p).1 ++ (findResolvedModules u p).2.1).map ECSpec.strip).Perm
      (u.map ECSpec.strip) := by
  induction u with
  | nil => intro p; simp [findResolvedModules]
  | cons m rest ih =>
    intro p
    by_cases h : (m.dependencies.filter (fun d => decide (d ∉ p))).isEmpty
    · simp only [findResolvedModules, if_pos h, List.cons_append, List.map_cons,
        ECSpec.strip_set_deps, List.map_append]
      refine List.Perm.cons _ ?_
      simpa [List.map_append] using ih (p ++ [m.module])
    · simp only [findResolvedModules, if_neg h, List.map_append, List.map_cons,
        ECSpec.strip_set_deps]
      refine List.Perm.trans List.perm_middle ?_
      refine List.Perm.cons _ ?_
      simpa [List.map_append] using ih p

theorem findResolvedModules_ordered_deps_nil (u : List ECSpec) :
    ∀ p, ∀ s ∈ (findResolvedModules u p).1, s.dependencies = [] := by
  induction u with
  | nil => intro p s hs; simp [findResolvedModules] at hs
  | cons m rest ih =>
    intro p s hs
    by_cases h : (m.dependencies.filter (fun d => decide (d ∉ p))).isEmpty
    · simp only [findResolvedModules, if_pos h] at hs
      rcases List.mem_cons.mp hs with rfl | hs'
      · simpa [List.isEmpty_iff] using h
      · exact ih (p ++ [m.module]) s hs'
    · simp only [findResolvedModules, if_neg h] at hs
      exact ih p s hs

theorem findResolvedModules_rem_deps (u : List ECSpec) :
    ∀ p, ∀ m ∈ (findResolvedModules u p).2.1, ∀ d ∈ m.dependencies, d ∉ p := by
  induction u with
  | nil => intro p m hm; simp [findResolvedModules] at hm
  | cons m rest ih =>
    intro p s hs
    by_cases h : (m.dependencies.filter (fun d => decide (d ∉ p))).isEmpty
    · simp only [findResolvedModules, if_pos h] at hs
      intro d hd
      have := ih (p ++ [m.module]) s hs d hd
      intro hdp
      exact this (List.mem_append_left _ hdp)
    · simp only [findResolvedModules, if_neg h] at hs
      rcases List.mem_cons.mp hs with rfl | hs'
      · intro d hd
        simp only [List.mem_filter] at hd
        simpa using hd.2
      · exact ih p s hs'

/-- Combined correctness facts for the inner fixed-point loop (stated
for any sufficient fuel, in particular for `runFixedPoint`): the placed
specs form a `Chain`, `processed` is extended by exactly the placed
modules, `DepsOK` is preserved, specs are only moved (never duplicated
or dropped), placed specs have an exhausted working set, and remaining
specs' working sets are disjoint from the final `processed` (the loop
only stops once a full pass strips nothing more, so the fuel bound
`unprocessed.length` never cuts the Python loop short). -/
theorem resolveFixedPoint_spec :
    ∀ (n : Nat) (u : List ECSpec) (p : List ModuleId), u.length ≤ n → DepsOK u p →
      Chain p (resolveFixedPoint n u p).1 ∧
      (resolveFixedPoint n u p).2.2 = p ++ ((resolveFixedPoint n u p).1).map (·.module) ∧
      DepsOK (resolveFixedPoint n u p).2.1 (resolveFixedPoint n u p).2.2 ∧
      (((resolveFixedPoint n u p).1 ++ (resolveFixedPoint n u p).2.1).map ECSpec.strip).Perm
        (u.map ECSpec.strip) ∧
      (∀ s ∈ (resolveFixedPoint n u p).1, s.dependencies = []) ∧
      (∀ m ∈ (resolveFixedPoint n u p).2.1, ∀ d ∈ m.dependencies,
        d ∉ (resolveFixedPoint n u p).2.2) := by
  intro n
  induction n with
  | zero =>
    intro u p hlen hok
    have hu : u = [] := List.length_eq_zero.mp (Nat.le_zero.mp hlen)
    subst hu
    have hr : resolveFixedPoint 0 [] p = ([], [], p) := rfl
    rw [hr]
    refine ⟨Chain.nil p, by simp, ?_, by simp, by simp, by simp⟩
    intro m hm
    simp at hm
  | succ k ih =>
    intro u p hlen hok
    have hpe := findResolvedModules_processed_eq u p
    have hln := findResolvedModules_length u p
    by_cases hgrow : p.length < (findResolvedModules u p).2.2.length
    · -- the pass placed at least one spec; the loop runs again
      simp only [resolveFixedPoint, if_pos hgrow]
      have hord : 0 < (findResolvedModules u p).1.length := by
        by_contra hz
        have : (findResolvedModules u p).1 = [] :=
          List.length_eq_zero.mp (by omega)
        rw [hpe, this] at hgrow
        simp at hgrow
      have hrec := ih (findResolvedModules u p).2.1 (findResolvedModules u p).2.2
        (by omega) (findResolvedModules_depsOK u p hok)
      obtain ⟨hC, hP, hD, hPerm, hNil, hRem⟩ := hrec
      refine ⟨?_, ?_, hD, ?_, ?_, hRem⟩
      · refine Chain.append (findResolvedModules_chain u p hok) ?_
        rw [← hpe]
        exact hC
      · rw [hP, hpe]
        simp [List.append_assoc]
      · have h1 : (((findResolvedModules u p).1 ++
            ((resolveFixedPoint k (findResolvedModules u p).2.1
              (findResolvedModules u p).2.2).1 ++
             (resolveFixedPoint k (findResolvedModules u p).2.1
              (findResolvedModules u p).2.2).2.1)).map ECSpec.strip).Perm
            (((findResolvedModules u p).1 ++ (findResolvedModules u p).2.1).map ECSpec.strip) := by
          simp only [List.map_append]
          exact List.Perm.append_left _ (by simpa [List.map_append] using hPerm)
        have h2 := findResolvedModules_perm u p
        refine List.Perm.trans ?_ h2
        simpa [List.append_assoc] using h1
      · intro s hs
        rcases List.mem_append.mp hs with h1 | h1
        · exact findResolvedModules_ordered_deps_nil u p s h1
        · exact hNil s h1
    · -- no progress: the loop stops, nothing was placed in the last pass
      simp only [resolveFixedPoint, if_neg hgrow]
      have hord : (findResolvedModules u p).1 = [] := by
        by_contra hne
        have : 0 < ((findResolvedModules u p).1).length :=
          List.length_pos.mpr hne
        rw [hpe] at hgrow
        simp only [List.length_append, List.length_map] at hgrow
        omega
      have hpp : (findResolvedModules u p).2.2 = p := by rw [hpe, hord]; simp
      refine ⟨by rw [hord]; exact Chain.nil p, by rw [hord, hpp]; simp, ?_, ?_, ?_, ?_⟩
      · exact findResolvedModules_depsOK u p hok
      · exact findResolvedModules_perm u p
      · intro s hs
        rw [hord] at hs
        simp at hs
      · intro m hm d hd
        rw [hpp]
        exact findResolvedModules_rem_deps u p m hm d hd

theorem runFixedPoint_spec (u : List ECSpec) (p : List ModuleId) (hok : DepsOK u p) :
    Chain p (runFixedPoint u p).1 ∧
    (runFixedPoint u p).2.2 = p ++ ((runFixedPoint u p).1).map (·.module) ∧
    DepsOK (runFixedPoint u p).2.1 (runFixedPoint u p).2.2 ∧
    (((runFixedPoint u p).1 ++ (runFixedPoint u p).2.1).map ECSpec.strip).Perm
      (u.map ECSpec.strip) ∧
    (∀ s ∈ (runFixedPoint u p).1, s.dependencies = []) ∧
    (∀ m ∈ (runFixedPoint u p).2.1, ∀ d ∈ m.dependencies, d ∉ (runFixedPoint u p).2.2) :=
  resolveFixedPoint_spec u.length u p le_rfl hok

/-- A successful robot scan really queried the robot: the returned
specs are the robot's answer for the chosen candidate, and the check
`candidates[0] in mods` passed. -/
theorem robotPass_ok_some (rf : RobotFn) (B : List ModuleId) :
    ∀ (l : List ECSpec) (c : ModuleId) (specs : List ECSpec),
      robotPass rf B l = .ok (some (c, specs)) →
      rf c = some specs ∧ c ∈ specs.map (·.module) := by
  intro l
  induction l with
  | nil =>
    intro c specs h
    simp [robotPass] at h
  | cons m rest ih =>
    intro c specs h
    rw [robotPass] at h
    cases hc : m.dependencies.filter (fun d => decide (d ∉ B)) with
    | nil =>
      rw [hc] at h
      exact ih c specs h
    | cons c0 cs =>
      rw [hc] at h
      dsimp only at h
      cases hrf0 : rf c0 with
      | none =>
        rw [hrf0] at h
        exact ih c specs h
      | some ns =>
        rw [hrf0] at h
        dsimp only at h
        by_cases hmem : c0 ∈ ns.map (·.module)
        · rw [if_pos hmem] at h
          have h' : (some (c0, ns) : Option (ModuleId × List ECSpec)) = some (c, specs) := by
            injection h
          have h2 : c0 = c ∧ ns = specs := by
            have := Option.some.inj h'
            exact ⟨congrArg Prod.fst this, congrArg Prod.snd this⟩
          rcases h2 with ⟨rfl, rfl⟩
          exact ⟨hrf0, hmem⟩
        · rw [if_neg hmem] at h
          simp at h

theorem resolveLoop_spec :
    ∀ (fuel : Nat) (rfo : Option RobotFn)
      (u : List ECSpec) (p : List ModuleId) (o ord rem : List ECSpec)
      (pfin : List ModuleId),
      (∀ rf c l, rfo = some rf → rf c = some l →
        ∀ s ∈ l, s.unresolvedDependencies = s.dependencies) →
      DepsOK u p →
      resolveLoop rfo fuel u p o = .ok (ord, rem, pfin) →
      ∃ ordNew added,
        ord = o ++ ordNew ∧
        Chain p ordNew ∧
        pfin = p ++ ordNew.map (·.module) ∧
        DepsOK rem pfin ∧
        ((ordNew ++ rem).map ECSpec.strip).Perm ((u ++ added).map ECSpec.strip) ∧
        (rfo = none → added = []) ∧
        (∀ s ∈ added, ∃ rf c l, rfo = some rf ∧ rf c = some l ∧ s ∈ l) ∧
        (∀ s ∈ ordNew, s.dependencies = []) ∧
        (∀ m ∈ rem, ∀ d ∈ m.dependencies, d ∉ pfin) := by
  intro fuel
  induction fuel with
  | zero =>
    intro rfo u p o ord rem pfin _ _ heq
    simp [resolveLoop] at heq
  | succ f ihf =>
    intro rfo u p o ord rem pfin hrf hok heq
    simp only [resolveLoop] at heq
    obtain ⟨hC, hPr, hD, hPerm, hNil, hRem⟩ := runFixedPoint_spec u p hok
    cases rfo with
    | none =>
      simp only [Except.ok.injEq, Prod.mk.injEq] at heq
      obtain ⟨h1, h2, h3⟩ := heq
      subst h1 h2 h3
      refine ⟨(runFixedPoint u p).1, [], rfl, hC, hPr, hD, ?_, fun _ => rfl,
        by simp, hNil, hRem⟩
      simpa using hPerm
    | some rf =>
      have hrf' : ∀ c l, rf c = some l →
          ∀ s ∈ l, s.unresolvedDependencies = s.dependencies :=
        fun c l hcl => hrf rf c l rfl hcl
      dsimp only at heq
      by_cases hrem0 : 0 < (runFixedPoint u p).2.1.length
      · rw [if_pos hrem0] at heq
        cases hrp : robotPass rf ((runFixedPoint u p).2.1.map (·.module))
            (runFixedPoint u p).2.1 with
        | error e =>
          rw [hrp] at heq
          simp at heq
        | ok onew =>
          rw [hrp] at heq
          cases onew with
          | none =>
            simp only [Except.ok.injEq, Prod.mk.injEq] at heq
            obtain ⟨h1, h2, h3⟩ := heq
            subst h1 h2 h3
            refine ⟨(runFixedPoint u p).1, [], rfl, hC, hPr, hD, ?_,
              by simp, by simp, hNil, hRem⟩
            simpa using hPerm
          | some pr =>
            obtain ⟨c, newSpecs⟩ := pr
            have hrobot := robotPass_ok_some rf
              ((runFixedPoint u p).2.1.map (·.module)) (runFixedPoint u p).2.1
              c newSpecs hrp
            have hok2 : DepsOK ((runFixedPoint u p).2.1 ++ newSpecs)
                (runFixedPoint u p).2.2 := by
              intro s hs d hd
              rcases List.mem_append.mp hs with hs' | hs'
              · exact hD s hs' d hd
              · have := hrf' c newSpecs hrobot.1 s hs'
                rw [this] at hd
                exact Or.inl hd
            obtain ⟨ordNew₂, added₂, e1, e2, e3, e4, e5, _, e6p, e7, e8⟩ :=
              ihf (some rf)
                ((runFixedPoint u p).2.1 ++ newSpecs) (runFixedPoint u p).2.2
                (o ++ (runFixedPoint u p).1) ord rem pfin hrf hok2 heq
            refine ⟨(runFixedPoint u p).1 ++ ordNew₂, newSpecs ++ added₂, ?_, ?_, ?_, e4,
              ?_, by simp, ?_, ?_, e8⟩
            · rw [e1, List.append_assoc]
            · refine Chain.append hC ?_
              rw [← hPr]
              exact e2
            · rw [e3, hPr]
              simp [List.append_assoc]
            · have step1 : (((runFixedPoint u p).1 ++ ordNew₂ ++ rem).map
                  ECSpec.strip).Perm
                  (((runFixedPoint u p).1 ++
                    (((runFixedPoint u p).2.1 ++ newSpecs) ++ added₂)).map ECSpec.strip) := by
                simp only [List.map_append, List.append_assoc]
                refine List.Perm.append_left _ ?_
                simpa [List.map_append] using e5
              refine step1.trans ?_
              have step2 : (((runFixedPoint u p).1 ++ (runFixedPoint u p).2.1).map
                  ECSpec.strip ++ ((newSpecs ++ added₂).map ECSpec.strip)).Perm
                  (u.map ECSpec.strip ++ ((newSpecs ++ added₂).map ECSpec.strip)) :=
                List.Perm.append_right _ hPerm
              have heq2 : (((runFixedPoint u p).1 ++
                  (((runFixedPoint u p).2.1 ++ newSpecs) ++ added₂)).map ECSpec.strip)
                  = (((runFixedPoint u p).1 ++ (runFixedPoint u p).2.1).map
                    ECSpec.strip ++ ((newSpecs ++ added₂).map ECSpec.strip)) := by
                simp [List.map_append, List.append_assoc]
              rw [heq2]
              refine step2.trans ?_
              simp [List.map_append, List.append_assoc]
            · intro s hs
              rcases List.mem_append.mp hs with hs' | hs'
              · exact ⟨rf, c, newSpecs, rfl, hrobot.1, hs'⟩
              · exact e6p s hs'
            · intro s hs
              rcases List.mem_append.mp hs with hs' | hs'
              · exact hNil s hs'
              · exact e7 s hs'
      · rw [if_neg hrem0] at heq
        simp only [Except.ok.injEq, Prod.mk.injEq] at heq
        obtain ⟨h1, h2, h3⟩ := heq
        subst h1 h2 h3
        refine ⟨(runFixedPoint u p).1, [], rfl, hC, hPr, hD, ?_,
          by simp, by simp, hNil, hRem⟩
        simpa using hPerm

/-- From a `Chain` to the positional reading: every original
dependency of the spec at position `i` is either already satisfied at
the start or is the module of a spec at an earlier position. -/
theorem Chain.sound :
    ∀ {p : List ModuleId} {l : List ECSpec}, Chain p l →
      ∀ i : Fin l.length, ∀ d ∈ (l.get i).unresolvedDependencies,
        d ∈ p ∨ ∃ j : Fin l.length, j.val < i.val ∧ (l.get j).module = d := by
  intro p l h
  induction h with
  | nil p =>
    intro i
    exact absurd i.isLt (by simp)
  | cons p s l hs hl ih =>
    intro i d hd
    obtain ⟨iv, hi⟩ := i
    cases iv with
    | zero =>
      left
      exact hs d (by simpa using hd)
    | succ k =>
      have hk : k < l.length := by simpa using hi
      have hd' : d ∈ (l.get ⟨k, hk⟩).unresolvedDependencies := by simpa using hd
      rcases ih ⟨k, hk⟩ d hd' with h1 | ⟨j, hj1, hj2⟩
      · rcases List.mem_append.mp h1 with h2 | h2
        · exact Or.inl h2
        · right
          refine ⟨⟨0, by simp⟩, by simp, ?_⟩
          have hds : d = s.module := by simpa using h2
          simp [hds]
      · right
        refine ⟨⟨j.val + 1, by simp only [List.length_cons]; omega⟩, ?_, ?_⟩
        · simpa using Nat.succ_lt_succ hj1
        · simpa using hj2

theorem map_strip_of_deps_nil {l : List ECSpec} (h : ∀ s ∈ l, s.dependencies = []) :
    l.map ECSpec.strip = l := by
  induction l with
  | nil => rfl
  | cons a t ih =>
    simp only [List.map_cons]
    rw [ECSpec.strip_eq_self (h a (List.mem_cons_self a t)),
      ih (fun s hs => h s (List.mem_cons_of_mem a hs))]

/-- Soundness of a successful resolution, for any input and any robot:
every input spec is placed (as its stripped copy); the output is, up
to reordering, exactly the stripped input plus a list of added specs,
each drawn from a robot answer, which is empty when no robot is
configured (so with no robot every input spec occurs exactly once);
and every original dependency of a placed spec is either externally
available and not among the *input* specs' module ids, or is the
module id of a spec placed strictly earlier. -/
theorem resolveDependencies_success_sound
    (input : List ECSpec) (rfo : Option RobotFn) (avail : List ModuleId)
    (ordered : List ECSpec)
    (hin : ∀ s ∈ input, s.unresolvedDependencies = s.dependencies)
    (hrf : ∀ rf c l, rfo = some rf → rf c = some l →
      ∀ s ∈ l, s.unresolvedDependencies = s.dependencies)
    (hok : resolveDependencies input rfo avail = .ok ordered) :
    (∀ s ∈ input, s.strip ∈ ordered) ∧
    (∃ added : List ECSpec,
      ordered.Perm ((input ++ added).map ECSpec.strip) ∧
      (rfo = none → added = []) ∧
      (∀ s ∈ added, ∃ rf c l, rfo = some rf ∧ rf c = some l ∧ s ∈ l)) ∧
    (∀ i : Fin ordered.length, ∀ d ∈ (ordered.get i).unresolvedDependencies,
      (d ∈ avail ∧ d ∉ input.map (·.module)) ∨
      ∃ j : Fin ordered.length, j.val < i.val ∧ (ordered.get j).module = d) := by
  rcases hst : resolveState input rfo avail with e | ⟨ord', rem, pfin⟩
  · rw [resolveDependencies, hst] at hok
    simp at hok
  · rw [resolveDependencies, hst] at hok
    dsimp only at hok
    by_cases hrem : 0 < rem.length
    · rw [if_pos hrem] at hok
      simp at hok
    · rw [if_neg hrem] at hok
      have hre : rem = [] := List.length_eq_zero.mp (by omega)
      have hordeq : ord' = ordered := by simpa using hok
      subst hordeq
      subst hre
      simp only [resolveState] at hst
      have hDeps0 : DepsOK input
          (avail.filter (fun m => decide (m ∉ input.map (·.module)))) := by
        intro s hs d hd
        rw [hin s hs] at hd
        exact Or.inl hd
      obtain ⟨ordNew, added, e1, e2, e3, e4, e5, e6, e6p, e7, e8⟩ :=
        resolveLoop_spec 10000 rfo input
          (avail.filter (fun m => decide (m ∉ input.map (·.module)))) [] ord' [] pfin
          hrf hDeps0 hst
      have hone : ord' = ordNew := by simpa using e1
      subst hone
      have hperm : ord'.Perm ((input ++ added).map ECSpec.strip) := by
        have := e5
        rw [List.append_nil, map_strip_of_deps_nil e7] at this
        exact this
      refine ⟨?_, ?_, ?_⟩
      · intro s hs
        refine hperm.mem_iff.mpr ?_
        rw [List.map_append]
        exact List.mem_append_left _ (List.mem_map_of_mem ECSpec.strip hs)
      · exact ⟨added, hperm, e6, e6p⟩
      · intro i d hd
        rcases Chain.sound e2 i d hd with h1 | h2
        · left
          rw [List.mem_filter] at h1
          refine ⟨h1.1, ?_⟩
          simpa using h1.2
        · exact Or.inr h2

theorem pyDictKeys_mem (l : List ModuleId) (d : ModuleId) :
    d ∈ pyDictKeys l ↔ d ∈ l := by
  have key : ∀ (l acc : List ModuleId),
      d ∈ l.foldl (fun acc d => if d ∈ acc then acc else acc ++ [d]) acc ↔
        d ∈ acc ∨ d ∈ l := by
    intro l
    induction l with
    | nil => intro acc; simp
    | cons a t ih =>
      intro acc
      simp only [List.foldl_cons]
      by_cases h : a ∈ acc
      · rw [if_pos h, ih]
        constructor
        · rintro (h1 | h1)
          · exact Or.inl h1
          · exact Or.inr (List.mem_cons_of_mem a h1)
        · rintro (h1 | h1)
          · exact Or.inl h1
          · rcases List.mem_cons.mp h1 with rfl | h2
            · exact Or.inl h
            · exact Or.inr h2
      · rw [if_neg h, ih]
        simp only [List.mem_append, List.mem_cons, List.mem_singleton]
        tauto
  have := key l []
  simpa [pyDictKeys] using this

theorem findResolvedModules_rem_ne (u : List ECSpec) :
    ∀ p, ∀ m ∈ (findResolvedModules u p).2.1, ¬ m.dependencies.isEmpty = true := by
  induction u with
  | nil =>
    intro p m hm
    simp [findResolvedModules] at hm
  | cons a rest ih =>
    intro p m hm
    by_cases h : (a.dependencies.filter (fun d => decide (d ∉ p))).isEmpty
    · simp only [findResolvedModules, if_pos h] at hm
      exact ih (p ++ [a.module]) m hm
    · simp only [findResolvedModules, if_neg h] at hm
      rcases List.mem_cons.mp hm with rfl | hm'
      · simpa using h
      · exact ih p m hm'

/-- On resolution failure the reported missing set is the union, over
all still-unprocessed specs, of their remaining dependency working
sets, each of which consists of ids not satisfied by the final
`processed` set.  Termination is inherent: `resolveDependencies` is a
total function. -/
theorem resolveDependencies_reports_all_missing
    (input : List ECSpec) (rfo : Option RobotFn) (avail : List ModuleId)
    (ord rem : List ECSpec) (pfin : List ModuleId)
    (hin : ∀ s ∈ input, s.unresolvedDependencies = s.dependencies)
    (hrf : ∀ rf c l, rfo = some rf → rf c = some l →
      ∀ s ∈ l, s.unresolvedDependencies = s.dependencies)
    (hst : resolveState input rfo avail = .ok (ord, rem, pfin))
    (hrem : rem ≠ []) :
    resolveDependencies input rfo avail =
      .error (.depsNotMet (pyDictKeys ((rem.map (·.dependencies)).flatten))) ∧
    (∀ d, d ∈ pyDictKeys ((rem.map (·.dependencies)).flatten) ↔
      ∃ m ∈ rem, d ∈ m.dependencies) ∧
    (∀ m ∈ rem, ∀ d ∈ m.dependencies, d ∉ pfin) := by
  refine ⟨?_, ?_, ?_⟩
  · rw [resolveDependencies, hst]
    dsimp only
    rw [if_pos (List.length_pos.mpr hrem)]
  · intro d
    rw [pyDictKeys_mem]
    simp only [List.mem_flatten, List.mem_map]
    constructor
    · rintro ⟨ds, ⟨m, hm, rfl⟩, hd⟩
      exact ⟨m, hm, hd⟩
    · rintro ⟨m, hm, hd⟩
      exact ⟨m.dependencies, ⟨m, hm, rfl⟩, hd⟩
  · have hDeps0 : DepsOK input
        (avail.filter (fun m => decide (m ∉ input.map (·.module)))) := by
      intro s hs d hd
      rw [hin s hs] at hd
      exact Or.inl hd
    simp only [resolveState] at hst
    obtain ⟨ordNew, added, _, _, _, _, _, _, _, _, e8⟩ :=
      resolveLoop_spec 10000 rfo input
        (avail.filter (fun m => decide (m ∉ input.map (·.module)))) [] ord rem pfin
        hrf hDeps0 hst
    exact e8

/-- Two runs of `resolveDependencies` on equal spec lists, equal robot
oracles and equal available-module lists return equal results (the
resolver consults no other state in the embedding). -/
theorem resolveDependencies_deterministic
    (u₁ u₂ : List ECSpec) (r₁ r₂ : Option RobotFn) (a₁ a₂ : List ModuleId)
    (hu : u₁ = u₂) (hr : r₁ = r₂) (ha : a₁ = a₂) :
    resolveDependencies u₁ r₁ a₁ = resolveDependencies u₂ r₂ a₂ := by
  subst hu
  subst hr
  subst ha
  rfl

/-- The resolver consumes the caller's list: a spec is moved out of
`unprocessed` in the same scan that appends it (with emptied working
set) to the ordered result, and after a successful resolution the
final `unprocessed` value — the list `main`'s cleanup loop iterates
over, by aliasing — is empty, so the cleanup removes no files. -/
theorem resolveDependencies_empties_input
    (input : List ECSpec) (rfo : Option RobotFn) (avail : List ModuleId) (ord : List ECSpec)
    (hok : resolveDependencies input rfo avail = .ok ord) :
    (∃ pfin, resolveState input rfo avail = .ok (ord, [], pfin)) ∧
    (∀ ord' rem' pfin', resolveState input rfo avail = .ok (ord', rem', pfin') →
      mainCleanupSpecs rem' = []) ∧
    (∀ u p, ∀ s ∈ (findResolvedModules u p).1, s.dependencies = []) ∧
    (∀ u p, ∀ m ∈ (findResolvedModules u p).2.1, ¬ m.dependencies.isEmpty = true) ∧
    (∀ u p, (findResolvedModules u p).1.length + (findResolvedModules u p).2.1.length
      = u.length) := by
  rcases hst : resolveState input rfo avail with e | ⟨ord', rem, pfin⟩
  · rw [resolveDependencies, hst] at hok
    simp at hok
  · rw [resolveDependencies, hst] at hok
    dsimp only at hok
    by_cases hrem : 0 < rem.length
    · rw [if_pos hrem] at hok
      simp at hok
    · rw [if_neg hrem] at hok
      have hre : rem = [] := List.length_eq_zero.mp (by omega)
      have hordeq : ord' = ord := by simpa using hok
      subst hordeq
      subst hre
      refine ⟨⟨pfin, rfl⟩, ?_, ?_, ?_, ?_⟩
      · intro o' r' p' h
        have h2 := Except.ok.inj h
        have hr' : r' = [] := by
          have := congrArg (fun (t : List ECSpec × List ECSpec × List ModuleId) => t.2.1) h2
          simpa using this.symm
        subst hr'
        rfl
      · exact fun u p => findResolvedModules_ordered_deps_nil u p
      · exact fun u p => findResolvedModules_rem_ne u p
      · exact fun u p => findResolvedModules_length u p

theorem splitBlocksAux_no_header (lines : List String)
    (h : ∀ l ∈ lines, parseHeader l = none) :
    splitBlocksAux lines = (lines, []) := by
  induction lines with
  | nil => rfl
  | cons l rest ih =>
    simp only [splitBlocksAux, h l (List.mem_cons_self l rest),
      ih (fun x hx => h x (List.mem_cons_of_mem l hx))]

/-- A spec source without any block header line is returned unchanged
as a one-element list; nothing is synthesized. -/
theorem retrieveBlocksInSpec_no_headers (lines : List String) (onlyBlocks : List String)
    (h : ∀ l ∈ lines, parseHeader l = none) :
    retrieveBlocksInSpec lines onlyBlocks = .ok [SpecFile.original] := by
  rw [retrieveBlocksInSpec, splitBlocksAux_no_header lines h]
  rfl

/-- The expansion scan does **not** stop at the first locator miss:
with the robot failing on the first spec's candidate (`d1`) and
succeeding on the second spec's candidate (`d2`), the code queries the
second spec in the same pass, resolves `d2`, and ends up missing only
`d1`; under the claim's first-miss-stops semantics the scan returns
nothing and both `d1` and `d2` stay missing. -/
theorem robotPass_not_first_only :
    robotPass c4robot [("s1", "1"), ("s2", "1")] [c4spec1, c4spec2] =
      .ok (some (c4dep2, [c4found])) ∧
    robotPassFirstOnly c4robot [("s1", "1"), ("s2", "1")] [c4spec1, c4spec2] =
      .ok none ∧
    resolveDependencies [c4spec1, c4spec2] (some c4robot) [] =
      .error (.depsNotMet [c4dep1]) ∧
    resolveDependenciesFirstOnly [c4spec1, c4spec2] (some c4robot) [] =
      .error (.depsNotMet [c4dep1, c4dep2]) := by
  decide

/-- What the expansion scan of `resolveDependencies` actually does: it
returns `none` exactly when, for **every** unprocessed spec in scan
order, the spec either has no candidate dependency or the robot misses
its first candidate; and a successful scan used the first spec (in
scan order) whose first candidate the robot satisfies — every earlier
spec's query failed, and each query is only for that spec's first
candidate dependency. -/
theorem robotPass_scan_characterization (rf : RobotFn) (B : List ModuleId) :
    ∀ l : List ECSpec,
      (robotPass rf B l = .ok none ↔ ∀ m ∈ l, robotQueryFails rf B m) ∧
      (∀ c specs, robotPass rf B l = .ok (some (c, specs)) →
        ∃ l₁ m l₂, l = l₁ ++ m :: l₂ ∧ (∀ m' ∈ l₁, robotQueryFails rf B m') ∧
          firstCandidate B m = some c ∧ rf c = some specs ∧
          c ∈ specs.map (·.module)) := by
  intro l
  induction l with
  | nil =>
    constructor
    · simp [robotPass]
    · intro c specs h
      simp [robotPass] at h
  | cons m rest ih =>
    have hunf : robotPass rf B (m :: rest) =
        match m.dependencies.filter (fun d => decide (d ∉ B)) with
        | [] => robotPass rf B rest
        | c :: _ =>
          match rf c with
          | none => robotPass rf B rest
          | some newSpecs =>
            if c ∈ newSpecs.map (·.module) then .ok (some (c, newSpecs))
            else .error (.moduleNotInSpecs c) := rfl
    cases hc : m.dependencies.filter (fun d => decide (d ∉ B)) with
    | nil =>
      have hred : robotPass rf B (m :: rest) = robotPass rf B rest := by
        rw [hunf, hc]
      have hfails : robotQueryFails rf B m := by
        unfold robotQueryFails firstCandidate
        rw [hc]
        exact trivial
      constructor
      · rw [hred, ih.1]
        constructor
        · intro hall m' hm'
          rcases List.mem_cons.mp hm' with rfl | hm''
          · exact hfails
          · exact hall m' hm''
        · intro hall m' hm'
          exact hall m' (List.mem_cons_of_mem m hm')
      · intro c specs h
        rw [hred] at h
        obtain ⟨l₁, m', l₂, he, hf, hfc, hrfc, hcm⟩ := ih.2 c specs h
        exact ⟨m :: l₁, m', l₂, by rw [he]; rfl, fun x hx => by
          rcases List.mem_cons.mp hx with rfl | hx'
          · exact hfails
          · exact hf x hx', hfc, hrfc, hcm⟩
    | cons c0 cs =>
      have hfc0 : firstCandidate B m = some c0 := by
        unfold firstCandidate
        rw [hc]
        rfl
      cases hr0 : rf c0 with
      | none =>
        have hred : robotPass rf B (m :: rest) = robotPass rf B rest := by
          rw [hunf, hc]
          dsimp only
          rw [hr0]
        have hfails : robotQueryFails rf B m := by
          unfold robotQueryFails
          rw [hfc0]
          exact hr0
        constructor
        · rw [hred, ih.1]
          constructor
          · intro hall m' hm'
            rcases List.mem_cons.mp hm' with rfl | hm''
            · exact hfails
            · exact hall m' hm''
          · intro hall m' hm'
            exact hall m' (List.mem_cons_of_mem m hm')
        · intro c specs h
          rw [hred] at h
          obtain ⟨l₁, m', l₂, he, hf, hfc, hrfc, hcm⟩ := ih.2 c specs h
          exact ⟨m :: l₁, m', l₂, by rw [he]; rfl, fun x hx => by
            rcases List.mem_cons.mp hx with rfl | hx'
            · exact hfails
            · exact hf x hx', hfc, hrfc, hcm⟩
      | some ns =>
        have hred : robotPass rf B (m :: rest) =
            (if c0 ∈ ns.map (·.module) then .ok (some (c0, ns))
             else .error (.moduleNotInSpecs c0)) := by
          rw [hunf, hc]
          dsimp only
          rw [hr0]
        by_cases hmem : c0 ∈ ns.map (·.module)
        · constructor
          · rw [hred, if_pos hmem]
            constructor
            · intro h
              simp at h
            · intro hall
              have := hall m (List.mem_cons_self m rest)
              unfold robotQueryFails at this
              rw [hfc0] at this
              rw [this] at hr0
              cases hr0
          · intro c specs h
            rw [hred, if_pos hmem] at h
            have h' := Except.ok.inj h
            have h2 := Option.some.inj h'
            have hcc : c0 = c := congrArg Prod.fst h2
            have hss : ns = specs := congrArg Prod.snd h2
            subst hcc
            subst hss
            exact ⟨[], m, rest, rfl, by intro x hx; simp at hx, hfc0, hr0, hmem⟩
        · constructor
          · rw [hred, if_neg hmem]
            constructor
            · intro h
              simp at h
            · intro hall
              have := hall m (List.mem_cons_self m rest)
              unfold robotQueryFails at this
              rw [hfc0] at this
              rw [this] at hr0
              cases hr0
          · intro c specs h
            rw [hred, if_neg hmem] at h
            simp at h

theorem chainVer_inj {m n : Nat} (h : chainVer m = chainVer n) : m = n := by
  have h1 : List.replicate m 'x' = List.replicate n 'x' := congrArg String.data h
  have h2 := congrArg List.length h1
  simpa using h2

theorem chainMod_inj {m n : Nat} (h : chainMod m = chainMod n) : m = n :=
  chainVer_inj (congrArg Prod.snd h)

theorem chainSpec_module (m : ModuleId) : (chainSpec m).module = m := rfl

theorem chainSpec_dep (i : Nat) :
    (chainSpec (chainMod i)).dependencies = [chainMod (i + 1)] := by
  simp only [chainSpec, chainMod, chainVer]
  have : String.mk (List.replicate i 'x') ++ "x" = String.mk (List.replicate (i + 1) 'x') := by
    show String.mk (List.replicate i 'x' ++ ['x']) = String.mk (List.replicate (i + 1) 'x')
    rw [← List.replicate_succ']
  rw [this]

theorem chainMod_mem_map (x k : Nat) :
    chainMod x ∈ (chainList k).map (·.module) ↔ x ≤ k := by
  simp only [chainList, List.map_map, List.mem_map, Function.comp]
  constructor
  · rintro ⟨i, hi, hmod⟩
    have : i = x := chainMod_inj hmod
    subst this
    exact Nat.lt_succ_iff.mp (List.mem_range.mp hi)
  · intro hx
    exact ⟨x, List.mem_range.mpr (Nat.lt_succ_iff.mpr hx), rfl⟩

theorem chainList_deps_ne (k : Nat) : ∀ m ∈ chainList k, m.dependencies ≠ [] := by
  intro m hm
  simp only [chainList, List.mem_map] at hm
  obtain ⟨i, _, rfl⟩ := hm
  rw [chainSpec_dep]
  simp

theorem robotPass_chainSegment (k : Nat) :
    ∀ (n j : Nat), j + n = k →
      robotPass chainRobot ((chainList k).map (·.module))
        ((List.range' j (n + 1)).map (fun i => chainSpec (chainMod i))) =
      .ok (some (chainMod (k + 1), [chainSpec (chainMod (k + 1))])) := by
  intro n
  induction n with
  | zero =>
    intro j hj
    subst hj
    simp only [Nat.add_zero]
    rw [List.range'_succ]
    simp only [List.map_cons, List.map_nil]
    rw [robotPass]
    have hnotin : chainMod (j + 1) ∉ (chainList j).map (·.module) := by
      rw [chainMod_mem_map]
      omega
    have hfil : (chainSpec (chainMod j)).dependencies.filter
        (fun d => decide (d ∉ (chainList j).map (·.module))) = [chainMod (j + 1)] := by
      rw [chainSpec_dep]
      simp only [List.filter_cons, List.filter_nil]
      rw [if_pos (decide_eq_true hnotin)]
    rw [hfil]
    dsimp only [chainRobot]
    rw [if_pos (by simp [chainSpec_module])]
  | succ n ih =>
    intro j hj
    rw [List.range'_succ]
    simp only [List.map_cons]
    rw [robotPass]
    have hin : chainMod (j + 1) ∈ (chainList k).map (·.module) := by
      rw [chainMod_mem_map]
      omega
    have hfil : (chainSpec (chainMod j)).dependencies.filter
        (fun d => decide (d ∉ (chainList k).map (·.module))) = [] := by
      rw [chainSpec_dep]
      simp only [List.filter_cons, List.filter_nil]
      rw [if_neg (by simp [hin])]
    rw [hfil]
    exact ih (j + 1) (by omega)

theorem robotPass_chainList (k : Nat) :
    robotPass chainRobot ((chainList k).map (·.module)) (chainList k) =
      .ok (some (chainMod (k + 1), [chainSpec (chainMod (k + 1))])) := by
  have h := robotPass_chainSegment k k 0 (by omega)
  show robotPass chainRobot ((chainList k).map (·.module))
      ((List.range (k + 1)).map (fun i => chainSpec (chainMod i))) = _
  rw [List.range_eq_range']
  exact h

theorem findResolvedModules_nil_processed (u : List ECSpec)
    (h : ∀ m ∈ u, m.dependencies ≠ []) :
    findResolvedModules u [] = ([], u, []) := by
  induction u with
  | nil => rfl
  | cons m rest ih =>
    have hfilter : m.dependencies.filter
        (fun d => decide (d ∉ ([] : List ModuleId))) = m.dependencies :=
      List.filter_eq_self.mpr (fun a _ => by simp)
    have hne : ¬ (m.dependencies.filter
        (fun d => decide (d ∉ ([] : List ModuleId)))).isEmpty = true := by
      rw [hfilter, List.isEmpty_iff]
      exact h m (List.mem_cons_self m rest)
    simp only [findResolvedModules, if_neg hne]
    rw [ih (fun s hs => h s (List.mem_cons_of_mem m hs)), hfilter]

theorem runFixedPoint_nil_processed (u : List ECSpec)
    (h : ∀ m ∈ u, m.dependencies ≠ []) :
    runFixedPoint u [] = ([], u, []) := by
  cases u with
  | nil => rfl
  | cons a t =>
    show resolveFixedPoint (t.length + 1) (a :: t) [] = ([], a :: t, [])
    simp only [resolveFixedPoint]
    rw [findResolvedModules_nil_processed _ h]
    simp

theorem resolveLoop_chainRobot :
    ∀ (fuel k : Nat) (o : List ECSpec),
      resolveLoop (some chainRobot) fuel (chainList k) [] o = .error .maxLoopReached := by
  intro fuel
  induction fuel with
  | zero => intro k o; rfl
  | succ f ih =>
    intro k o
    simp only [resolveLoop]
    rw [runFixedPoint_nil_processed _ (chainList_deps_ne k)]
    dsimp only
    rw [if_pos (by simp [chainList])]
    rw [robotPass_chainList k]
    dsimp only
    have hext : chainList k ++ [chainSpec (chainMod (k + 1))] = chainList (k + 1) := by
      show chainList k ++ [chainSpec (chainMod (k + 1))] =
        (List.range (k + 1 + 1)).map (fun i => chainSpec (chainMod i))
      rw [List.range_succ, List.map_append]
      rfl
    rw [hext]
    exact ih (k + 1) (o ++ [])

/-- The outer resolution loop is hard-capped: with a locator that
answers every query with a fresh spec carrying a fresh unknown
dependency, `resolveDependencies` still terminates, exhausting its
`maxloopcnt = 10000` iteration budget and raising the fatal
"Maximum loop cnt reached" resolution error. -/
theorem resolveDependencies_loop_cap :
    resolveDependencies [chainSpec (chainMod 0)] (some chainRobot) [] =
      .error .maxLoopReached := by
  have h0 : chainList 0 = [chainSpec (chainMod 0)] := rfl
  have hmain : resolveState [chainSpec (chainMod 0)] (some chainRobot) [] =
      .error ResolveError.maxLoopReached := by
    rw [resolveState]
    simp only [List.filter_nil]
    rw [← h0]
    exact resolveLoop_chainRobot 10000 0 []
  rw [resolveDependencies, hmain]

theorem perform_step_app_blocked (penv : PipelineEnv) (nm : String) (a k : Nat)
    (lf : String) (st : PipeState) (h : StepKey.app a ∈ st.stopped) :
    perform_step_app penv nm a k lf st = st := by
  rw [perform_step_app, if_pos h]

theorem perform_step_app_success (penv : PipelineEnv) (nm : String) (a k : Nat)
    (lf : String) (st : PipeState) (h : penv.runStep a k st.env = (st.env, none)) :
    perform_step_app penv nm a k lf st = st := by
  rw [perform_step_app]
  by_cases hb : StepKey.app a ∈ st.stopped
  · rw [if_pos hb]
  · rw [if_neg hb, h]

theorem perform_step_app_fail (penv : PipelineEnv) (nm : String) (a k : Nat)
    (lf eMsg : String) (st : PipeState) (hb : StepKey.app a ∉ st.stopped)
    (h : penv.runStep a k st.env = (st.env, some eMsg)) :
    perform_step_app penv nm a k lf st =
      { st with
        results := st.results ++ [⟨.app a, nm, eMsg, lf⟩],
        stopped := st.stopped ++ [.app a] } := by
  rw [perform_step_app, if_neg hb, h]

theorem foldl_steps_blocked (penv : PipelineEnv) (a : Nat) (lf : String)
    (L : List (String × Nat)) :
    ∀ st : PipeState, StepKey.app a ∈ st.stopped →
      L.foldl (fun s pr => perform_step_app penv pr.1 a pr.2 lf s) st = st := by
  induction L with
  | nil => intro st _; rfl
  | cons pr rest ih =>
    intro st h
    rw [List.foldl_cons, perform_step_app_blocked penv pr.1 a pr.2 lf st h]
    exact ih st h

theorem foldl_steps_success (penv : PipelineEnv) (a : Nat) (lf : String)
    (L : List (String × Nat)) :
    ∀ st : PipeState, (∀ pr ∈ L, ∀ env, penv.runStep a pr.2 env = (env, none)) →
      L.foldl (fun s pr => perform_step_app penv pr.1 a pr.2 lf s) st = st := by
  induction L with
  | nil => intro st _; rfl
  | cons pr rest ih =>
    intro st h
    rw [List.foldl_cons,
      perform_step_app_success penv pr.1 a pr.2 lf st
        (h pr (List.mem_cons_self pr rest) st.env)]
    exact ih st (fun q hq => h q (List.mem_cons_of_mem pr hq))

theorem foldl_steps_failAt (penv : PipelineEnv) (a : Nat) (lf : String)
    (L1 L2 : List (String × Nat)) (nm : String) (kb : Nat) (eMsg : String)
    (st : PipeState) (hb : StepKey.app a ∉ st.stopped)
    (hpre : ∀ pr ∈ L1, ∀ env, penv.runStep a pr.2 env = (env, none))
    (hfail : ∀ env, penv.runStep a kb env = (env, some eMsg)) :
    (L1 ++ (nm, kb) :: L2).foldl
        (fun s pr => perform_step_app penv pr.1 a pr.2 lf s) st =
      { st with
        results := st.results ++ [⟨.app a, nm, eMsg, lf⟩],
        stopped := st.stopped ++ [.app a] } := by
  rw [List.foldl_append, foldl_steps_success penv a lf L1 st hpre, List.foldl_cons]
  rw [perform_step_app_fail penv nm a kb lf eMsg st hb (hfail st.env)]
  exact foldl_steps_blocked penv a lf L2 _ (by simp)

theorem runApp_success (penv : PipelineEnv) (a : Nat) (st : PipeState)
    (h : ∀ k env, penv.runStep a k env = (env, none)) :
    runApp penv a st = st := by
  rw [runApp, runStages,
    foldl_steps_success penv a (penv.appLog a) stageList st (fun pr _ env => h pr.2 env)]
  by_cases ht : !penv.skipTestCases && penv.hasTests a
  · rw [if_pos ht, perform_step_app_success penv _ a 20 _ st (h 20 st.env)]
  · rw [if_neg ht]

theorem runApp_failAt (penv : PipelineEnv) (a : Nat) (st : PipeState)
    (L1 L2 : List (String × Nat)) (nm : String) (kb : Nat) (eMsg : String)
    (hb : StepKey.app a ∉ st.stopped)
    (hsplit : stageList = L1 ++ (nm, kb) :: L2)
    (hpre : ∀ pr ∈ L1, ∀ env, penv.runStep a pr.2 env = (env, none))
    (hfail : ∀ env, penv.runStep a kb env = (env, some eMsg)) :
    runApp penv a st =
      { st with
        results := st.results ++ [⟨.app a, nm, eMsg, penv.appLog a⟩],
        stopped := st.stopped ++ [.app a] } := by
  rw [runApp, runStages, hsplit,
    foldl_steps_failAt penv a (penv.appLog a) L1 L2 nm kb eMsg st hb hpre hfail]
  by_cases ht : !penv.skipTestCases && penv.hasTests a
  · rw [if_pos ht, perform_step_app_blocked penv _ a 20 _ _ (by simp)]
  · rw [if_neg ht]

theorem processApp_none (penv : PipelineEnv) (bd : String) (be : Env) (st : PipeState) :
    processApp penv bd be st none = st := rfl

theorem processApp_good (penv : PipelineEnv) (bd : String) (be : Env) (st : PipeState)
    (a : Nat) (hb : StepKey.app a ∉ st.stopped)
    (h : ∀ k env, penv.runStep a k env = (env, none)) :
    processApp penv bd be st (some a) =
      { st with
        cwd := bd,
        env := be,
        startStates := st.startStates ++ [(bd, be)],
        successes := st.successes ++ [a] } := by
  rw [processApp, runApp_success penv a _ h, collectSuccess, if_neg hb]

theorem processApp_bad (penv : PipelineEnv) (bd : String) (be : Env) (st : PipeState)
    (a : Nat) (L1 L2 : List (String × Nat)) (nm : String) (kb : Nat) (eMsg : String)
    (hb : StepKey.app a ∉ st.stopped)
    (hsplit : stageList = L1 ++ (nm, kb) :: L2)
    (hpre : ∀ pr ∈ L1, ∀ env, penv.runStep a pr.2 env = (env, none))
    (hfail : ∀ env, penv.runStep a kb env = (env, some eMsg)) :
    processApp penv bd be st (some a) =
      { st with
        cwd := bd,
        env := be,
        startStates := st.startStates ++ [(bd, be)],
        results := st.results ++ [⟨.app a, nm, eMsg, penv.appLog a⟩],
        stopped := st.stopped ++ [.app a] } := by
  rw [processApp]
  have hb' : StepKey.app a ∉ ({ st with
      cwd := bd,
      env := be,
      startStates := st.startStates ++ [(bd, be)] } : PipeState).stopped := hb
  rw [runApp_failAt penv a _ L1 L2 nm kb eMsg hb' hsplit hpre hfail,
    collectSuccess, if_pos (by simp)]

theorem buildLoop_append (penv : PipelineEnv) (bd : String) (be : Env)
    (l1 l2 : List (Option Nat)) :
    ∀ st, buildLoop penv bd be (l1 ++ l2) st = buildLoop penv bd be l2 (buildLoop penv bd be l1 st) := by
  induction l1 with
  | nil => intro st; rfl
  | cons oa rest ih =>
    intro st
    rw [List.cons_append, buildLoop, buildLoop]
    exact ih (processApp penv bd be st oa)

theorem buildLoop_good (penv : PipelineEnv) (bd : String) (be : Env)
    (oas : List (Option Nat)) :
    ∀ st : PipeState,
      st.cwd = bd → st.env = be →
      (∀ a, some a ∈ oas → ∀ k env, penv.runStep a k env = (env, none)) →
      (∀ a, some a ∈ oas → StepKey.app a ∉ st.stopped) →
      buildLoop penv bd be oas st =
        { st with
          startStates := st.startStates ++ List.replicate (oas.filterMap id).length (bd, be),
          successes := st.successes ++ oas.filterMap id } := by
  induction oas with
  | nil =>
    intro st _ _ _ _
    show st = _
    cases st
    simp
  | cons oa rest ih =>
    intro st hcwd henv hora hnb
    cases oa with
    | none =>
      rw [buildLoop, processApp_none]
      rw [ih st hcwd henv (fun a ha => hora a (List.mem_cons_of_mem none ha))
        (fun a ha => hnb a (List.mem_cons_of_mem none ha))]
      simp
    | some a =>
      rw [buildLoop,
        processApp_good penv bd be st a (hnb a (List.mem_cons_self _ rest))
          (hora a (List.mem_cons_self _ rest))]
      rw [ih { st with
          cwd := bd,
          env := be,
          startStates := st.startStates ++ [(bd, be)],
          successes := st.successes ++ [a] } rfl rfl
        (fun x hx => hora x (List.mem_cons_of_mem (some a) hx))
        (fun x hx => hnb x (List.mem_cons_of_mem (some a) hx))]
      subst hcwd
      subst henv
      cases st
      simp [List.append_assoc, List.replicate_succ]

theorem initApps_ok (penv : PipelineEnv) (ecs : List String) (inst : String → Nat) :
    ∀ st : PipeState,
      (∀ ec ∈ ecs, penv.getInstance ec = .ok (inst ec)) →
      (∀ ec ∈ ecs, StepKey.spec ec ∉ st.stopped) →
      initApps penv ecs st = (ecs.map (fun ec => some (inst ec)), st) := by
  induction ecs with
  | nil => intro st _ _; rfl
  | cons ec rest ih =>
    intro st hok hnb
    have hstep : perform_step_init penv ec st = (some (inst ec), st) := by
      rw [perform_step_init, if_neg (hnb ec (List.mem_cons_self ec rest)),
        hok ec (List.mem_cons_self ec rest)]
    rw [initApps, hstep]
    rw [ih st (fun x hx => hok x (List.mem_cons_of_mem ec hx))
      (fun x hx => hnb x (List.mem_cons_of_mem ec hx))]
    simp

theorem initApps_append (penv : PipelineEnv) (l1 l2 : List String) :
    ∀ st : PipeState,
      initApps penv (l1 ++ l2) st =
        ((initApps penv l1 st).1 ++ (initApps penv l2 (initApps penv l1 st).2).1,
          (initApps penv l2 (initApps penv l1 st).2).2) := by
  induction l1 with
  | nil => intro st; rfl
  | cons ec rest ih =>
    intro st
    rw [List.cons_append, initApps, initApps]
    rw [ih (perform_step_init penv ec st).2]
    simp

/-- One initialization failure: the failing spec gets a record keyed by
its spec path and is marked halted; its slot in `apps` is `None`. -/
theorem perform_step_init_bad (penv : PipelineEnv) (ec : String) (eMsg : String)
    (st : PipeState) (hnb : StepKey.spec ec ∉ st.stopped)
    (hbad : penv.getInstance ec = .error eMsg) :
    perform_step_init penv ec st =
      (none, { st with
        results := st.results ++ [⟨.spec ec, "initialization", eMsg, penv.mainLog⟩],
        stopped := st.stopped ++ [.spec ec] }) := by
  rw [perform_step_init, if_neg hnb, hbad]

/-- Failure isolation in the step pipeline.  Part one: if every
instance initializes and exactly one instance fails its stages — all
stages from position `(nm, kb)` of the stage sequence on raise — then
exactly one failure record is appended, naming that instance, that
first failing step, and its log file; every stage after the failing one
is skipped (no further record); the failing instance is the only halted
one; and every other instance still runs through all its stages and is
collected as a success, in batch order.  Part two: if one spec's
initialization fails, its `apps` slot is `None`,
the single failure record references the spec path and the main log,
and every other instance still runs through all stages successfully. -/
theorem build_easyconfigs_failure_isolation :
    (∀ (penv : PipelineEnv) (pre post : List String) (badEc : String)
        (inst : String → Nat) (st : PipeState) (L1 L2 : List (String × Nat))
        (nm : String) (kb : Nat) (eMsg : String),
      (∀ ec ∈ pre ++ badEc :: post, penv.getInstance ec = .ok (inst ec)) →
      (∀ ec ∈ pre ++ badEc :: post, StepKey.spec ec ∉ st.stopped) →
      (∀ ec ∈ pre ++ post, inst ec ≠ inst badEc) →
      (∀ ec ∈ pre ++ badEc :: post, StepKey.app (inst ec) ∉ st.stopped) →
      stageList = L1 ++ (nm, kb) :: L2 →
      (∀ pr ∈ L1, pr.2 < kb) →
      (∀ a k env, penv.runStep a k env =
        (env, if a = inst badEc ∧ kb ≤ k then some eMsg else none)) →
      (build_easyconfigs penv (pre ++ badEc :: post) st).1 =
        (pre ++ badEc :: post).map (fun ec => some (inst ec)) ∧
      (build_easyconfigs penv (pre ++ badEc :: post) st).2.results =
        st.results ++ [⟨.app (inst badEc), nm, eMsg, penv.appLog (inst badEc)⟩] ∧
      (build_easyconfigs penv (pre ++ badEc :: post) st).2.stopped =
        st.stopped ++ [.app (inst badEc)] ∧
      (build_easyconfigs penv (pre ++ badEc :: post) st).2.successes =
        st.successes ++ (pre.map inst ++ post.map inst)) ∧
    (∀ (penv : PipelineEnv) (pre post : List String) (badEc : String)
        (inst : String → Nat) (st : PipeState) (eMsg : String),
      (∀ ec ∈ pre ++ post, penv.getInstance ec = .ok (inst ec)) →
      penv.getInstance badEc = .error eMsg →
      (∀ ec ∈ pre ++ badEc :: post, StepKey.spec ec ∉ st.stopped) →
      badEc ∉ pre →
      badEc ∉ post →
      (∀ ec ∈ pre ++ post, StepKey.app (inst ec) ∉ st.stopped) →
      (∀ a k env, penv.runStep a k env = (env, none)) →
      (build_easyconfigs penv (pre ++ badEc :: post) st).1 =
        pre.map (fun ec => some (inst ec)) ++ none :: post.map (fun ec => some (inst ec)) ∧
      (build_easyconfigs penv (pre ++ badEc :: post) st).2.results =
        st.results ++ [⟨.spec badEc, "initialization", eMsg, penv.mainLog⟩] ∧
      (build_easyconfigs penv (pre ++ badEc :: post) st).2.stopped =
        st.stopped ++ [.spec badEc] ∧
      (build_easyconfigs penv (pre ++ badEc :: post) st).2.successes =
        st.successes ++ (pre.map inst ++ post.map inst)) := by
  constructor
  · intro penv pre post badEc inst st L1 L2 nm kb eMsg hinst hspecnb hdist happnb hsplit
      hmono horacle
    have hinit := initApps_ok penv (pre ++ badEc :: post) inst st hinst hspecnb
    have hgood : ∀ a, a ≠ inst badEc → ∀ k env, penv.runStep a k env = (env, none) := by
      intro a hne k env
      rw [horacle]
      simp [hne]
    have hfailk : ∀ env, penv.runStep (inst badEc) kb env = (env, some eMsg) := by
      intro env
      rw [horacle]
      simp
    have hprek : ∀ pr ∈ L1, ∀ env, penv.runStep (inst badEc) pr.2 env = (env, none) := by
      intro pr hpr env
      rw [horacle]
      have := hmono pr hpr
      have hlt : ¬ kb ≤ pr.2 := by omega
      simp [hlt]
    rw [build_easyconfigs, hinit]
    dsimp only
    rw [List.map_append, List.map_cons]
    rw [buildLoop_append]
    have hloop1 := buildLoop_good penv st.cwd st.env (pre.map (fun ec => some (inst ec))) st
      rfl rfl
      (by
        intro a ha
        simp only [List.mem_map] at ha
        obtain ⟨ec, hec, heq⟩ := ha
        have := Option.some.inj heq
        exact this ▸ hgood (inst ec)
          (hdist ec (List.mem_append_left _ hec)) )
      (by
        intro a ha
        simp only [List.mem_map] at ha
        obtain ⟨ec, hec, heq⟩ := ha
        have h2 := Option.some.inj heq
        exact h2 ▸ happnb ec (List.mem_append_left _ hec))
    rw [hloop1, buildLoop]
    have hfm : ∀ l : List String, (l.map (fun ec => some (inst ec))).filterMap id = l.map inst := by
      intro l
      rw [List.filterMap_map]
      show List.filterMap (some ∘ inst) l = _
      rw [List.filterMap_eq_map]
    have hbadnb : StepKey.app (inst badEc) ∉
        ({ st with
          startStates := st.startStates ++
            List.replicate ((pre.map (fun ec => some (inst ec))).filterMap id).length
              (st.cwd, st.env),
          successes := st.successes ++ (pre.map (fun ec => some (inst ec))).filterMap id } :
            PipeState).stopped :=
      happnb badEc (List.mem_append_right _ (List.mem_cons_self _ _))
    rw [processApp_bad penv st.cwd st.env _ (inst badEc) L1 L2 nm kb eMsg hbadnb hsplit
      hprek hfailk]
    rw [buildLoop_good penv st.cwd st.env (post.map (fun ec => some (inst ec))) _
      (by rfl) (by rfl)
      (by
        intro a ha
        simp only [List.mem_map] at ha
        obtain ⟨ec, hec, heq⟩ := ha
        have h2 := Option.some.inj heq
        exact h2 ▸ hgood (inst ec) (hdist ec (List.mem_append_right _ hec)))
      (by
        intro a ha
        simp only [List.mem_map] at ha
        obtain ⟨ec, hec, heq⟩ := ha
        have h2 := Option.some.inj heq
        subst h2
        show StepKey.app (inst ec) ∉ st.stopped ++ [StepKey.app (inst badEc)]
        simp only [List.mem_append]
        push_neg
        constructor
        · exact happnb ec (List.mem_append_right _ (List.mem_cons_of_mem _ hec))
        · intro hc
          have := StepKey.app.inj (List.mem_singleton.mp hc)
          exact hdist ec (List.mem_append_right _ hec) this)]
    cases st
    refine ⟨rfl, by simp, by simp, by simp [hfm, List.append_assoc]⟩
  · intro penv pre post badEc inst st eMsg hinst hbad hspecnb hnpre hnpost happnb horacle
    have hfm : ∀ l : List String, (l.map (fun ec => some (inst ec))).filterMap id = l.map inst := by
      intro l
      rw [List.filterMap_map]
      show List.filterMap (some ∘ inst) l = _
      rw [List.filterMap_eq_map]
    have hinitpre := initApps_ok penv pre inst st
      (fun ec hec => hinst ec (List.mem_append_left _ hec))
      (fun ec hec => hspecnb ec (List.mem_append_left _ hec))
    rw [build_easyconfigs, initApps_append, hinitpre]
    dsimp only
    rw [initApps]
    rw [perform_step_init_bad penv badEc eMsg st
      (hspecnb badEc (List.mem_append_right _ (List.mem_cons_self _ _))) hbad]
    dsimp only
    have hinitpost := initApps_ok penv post inst
      { st with
        results := st.results ++ [⟨.spec badEc, "initialization", eMsg, penv.mainLog⟩],
        stopped := st.stopped ++ [.spec badEc] }
      (fun ec hec => hinst ec (List.mem_append_right _ hec))
      (by
        intro ec hec
        simp only [List.mem_append]
        push_neg
        constructor
        · exact hspecnb ec (List.mem_append_right _ (List.mem_cons_of_mem _ hec))
        · intro hc
          have := StepKey.spec.inj (List.mem_singleton.mp hc)
          exact hnpost (this ▸ hec))
    rw [hinitpost]
    dsimp only
    have hloop := buildLoop_good penv st.cwd st.env
      (pre.map (fun ec => some (inst ec)) ++ none :: post.map (fun ec => some (inst ec)))
      { st with
        results := st.results ++ [⟨.spec badEc, "initialization", eMsg, penv.mainLog⟩],
        stopped := st.stopped ++ [.spec badEc] }
      rfl rfl
      (fun a _ k env => horacle a k env)
      (by
        intro a ha
        simp only [List.mem_append, List.mem_cons, List.mem_map] at ha
        have hmem : ∃ ec ∈ pre ++ post, inst ec = a := by
          rcases ha with ⟨ec, hec, heq⟩ | h2
          · exact ⟨ec, List.mem_append_left _ hec, Option.some.inj heq⟩
          · rcases h2 with h2 | ⟨ec, hec, heq⟩
            · cases h2
            · exact ⟨ec, List.mem_append_right _ hec, Option.some.inj heq⟩
        obtain ⟨ec, hec, rfl⟩ := hmem
        simp only [List.mem_append]
        push_neg
        constructor
        · exact happnb ec hec
        · intro hc
          cases List.mem_singleton.mp hc)
    rw [hloop]
    cases st
    refine ⟨rfl, by simp, by simp, by simp [hfm, List.filterMap_append, List.append_assoc]⟩

theorem perform_step_init_frame (penv : PipelineEnv) (ec : String) (st : PipeState) :
    (perform_step_init penv ec st).2.env = st.env ∧
    (perform_step_init penv ec st).2.cwd = st.cwd ∧
    (perform_step_init penv ec st).2.startStates = st.startStates := by
  rw [perform_step_init]
  by_cases h : StepKey.spec ec ∈ st.stopped
  · rw [if_pos h]
    exact ⟨rfl, rfl, rfl⟩
  · rw [if_neg h]
    cases hgi : penv.getInstance ec with
    | ok a => exact ⟨rfl, rfl, rfl⟩
    | error e => exact ⟨rfl, rfl, rfl⟩

theorem initApps_frame (penv : PipelineEnv) (ecs : List String) :
    ∀ st : PipeState,
      (initApps penv ecs st).2.env = st.env ∧
      (initApps penv ecs st).2.cwd = st.cwd ∧
      (initApps penv ecs st).2.startStates = st.startStates := by
  induction ecs with
  | nil => intro st; exact ⟨rfl, rfl, rfl⟩
  | cons ec rest ih =>
    intro st
    rw [initApps]
    obtain ⟨h1, h2, h3⟩ := ih (perform_step_init penv ec st).2
    obtain ⟨g1, g2, g3⟩ := perform_step_init_frame penv ec st
    exact ⟨by rw [h1, g1], by rw [h2, g2], by rw [h3, g3]⟩

theorem perform_step_app_frame (penv : PipelineEnv) (nm : String) (a k : Nat)
    (lf : String) (st : PipeState) :
    (perform_step_app penv nm a k lf st).startStates = st.startStates ∧
    (perform_step_app penv nm a k lf st).cwd = st.cwd ∧
    (perform_step_app penv nm a k lf st).successes = st.successes := by
  rw [perform_step_app]
  by_cases h : StepKey.app a ∈ st.stopped
  · rw [if_pos h]
    exact ⟨rfl, rfl, rfl⟩
  · rw [if_neg h]
    rcases hrs : penv.runStep a k st.env with ⟨env', res⟩
    cases res with
    | none => exact ⟨rfl, rfl, rfl⟩
    | some e => exact ⟨rfl, rfl, rfl⟩

theorem runApp_frame (penv : PipelineEnv) (a : Nat) (st : PipeState) :
    (runApp penv a st).startStates = st.startStates ∧
    (runApp penv a st).cwd = st.cwd := by
  have hfold : ∀ (L : List (String × Nat)) (s : PipeState),
      ((L.foldl (fun s pr => perform_step_app penv pr.1 a pr.2 (penv.appLog a) s) s).startStates
        = s.startStates) ∧
      ((L.foldl (fun s pr => perform_step_app penv pr.1 a pr.2 (penv.appLog a) s) s).cwd
        = s.cwd) := by
    intro L
    induction L with
    | nil => intro s; exact ⟨rfl, rfl⟩
    | cons pr rest ih =>
      intro s
      rw [List.foldl_cons]
      obtain ⟨h1, h2⟩ := ih (perform_step_app penv pr.1 a pr.2 (penv.appLog a) s)
      obtain ⟨g1, g2, _⟩ := perform_step_app_frame penv pr.1 a pr.2 (penv.appLog a) s
      exact ⟨by rw [h1, g1], by rw [h2, g2]⟩
  rw [runApp, runStages]
  by_cases ht : !penv.skipTestCases && penv.hasTests a
  · rw [if_pos ht]
    obtain ⟨h1, h2⟩ := hfold stageList st
    obtain ⟨g1, g2, _⟩ := perform_step_app_frame penv "test cases" a 20 (penv.appLog a)
      (stageList.foldl (fun s pr => perform_step_app penv pr.1 a pr.2 (penv.appLog a) s) st)
    exact ⟨by rw [g1, h1], by rw [g2, h2]⟩
  · rw [if_neg ht]
    exact hfold stageList st

theorem collectSuccess_frame (a : Nat) (st : PipeState) :
    (collectSuccess a st).startStates = st.startStates ∧
    (collectSuccess a st).cwd = st.cwd := by
  rw [collectSuccess]
  by_cases h : StepKey.app a ∈ st.stopped
  · rw [if_pos h]
    exact ⟨rfl, rfl⟩
  · rw [if_neg h]
    exact ⟨rfl, rfl⟩

/-- Every (cwd, env) pair observed at the start of an instance's build
is exactly the snapshot pair: one entry per built instance. -/
theorem buildLoop_startStates (penv : PipelineEnv) (bd : String) (be : Env)
    (oas : List (Option Nat)) :
    ∀ st : PipeState,
      (buildLoop penv bd be oas st).startStates =
        st.startStates ++ List.replicate (oas.filterMap id).length (bd, be) := by
  induction oas with
  | nil => intro st; simp [buildLoop]
  | cons oa rest ih =>
    intro st
    cases oa with
    | none =>
      rw [buildLoop, processApp_none, ih st]
      simp
    | some a =>
      rw [buildLoop, processApp]
      rw [ih _]
      obtain ⟨hrs, _⟩ := collectSuccess_frame a (runApp penv a
        { st with
          cwd := bd,
          env := be,
          startStates := st.startStates ++ [(bd, be)] })
      rw [hrs]
      obtain ⟨hra, _⟩ := runApp_frame penv a
        { st with
          cwd := bd,
          env := be,
          startStates := st.startStates ++ [(bd, be)] }
      rw [hra]
      show st.startStates ++ [(bd, be)] ++ _ = _
      simp [List.append_assoc, List.replicate_succ]

/-- The baseline snapshot is captured exactly once: the initialization
phase does not touch the environment, the working directory, or the
observed start states, and every instance's build starts from that one
(cwd, env) snapshot — whatever the stage bodies (`penv.runStep`) do to
the environment during earlier builds is invisible at the start of any
later build. -/
theorem build_easyconfigs_env_reset (penv : PipelineEnv) (ecs : List String)
    (st : PipeState) :
    (initApps penv ecs st).2.env = st.env ∧
    (initApps penv ecs st).2.cwd = st.cwd ∧
    (build_easyconfigs penv ecs st).2.startStates =
      st.startStates ++
        List.replicate (((build_easyconfigs penv ecs st).1.filterMap id).length)
          (st.cwd, st.env) := by
  obtain ⟨h1, h2, h3⟩ := initApps_frame penv ecs st
  refine ⟨h1, h2, ?_⟩
  show (buildLoop penv (initApps penv ecs st).2.cwd (initApps penv ecs st).2.env
      (initApps penv ecs st).1 (initApps penv ecs st).2).startStates = _
  rw [buildLoop_startStates, h3, h1, h2]
  rfl

theorem depsContent_ok (blocks : List SpecBlock) (f : String → SpecBlock) :
    ∀ ds : List String,
      (∀ d ∈ ds, lookupBlock blocks d = some (f d)) →
      depsContent blocks ds =
        .ok (ds.flatMap (fun d => depMarkerLine (f d).name :: (f d).contents)) := by
  intro ds
  induction ds with
  | nil => intro _; rfl
  | cons d rest ih =>
    intro hlook
    rw [depsContent, hlook d (List.mem_cons_self d rest),
      ih (fun x hx => hlook x (List.mem_cons_of_mem d hx))]
    simp

theorem synthesizeBlocks_mem (common : List String) (allBlocks : List SpecBlock)
    (onlyBlocks : List String) :
    ∀ (bs : List SpecBlock) (result : List SpecFile) (b : SpecBlock) (content : List String),
      synthesizeBlocks common allBlocks onlyBlocks bs = .ok result →
      b ∈ bs → keepBlock onlyBlocks b.name = true →
      blockContent common allBlocks b = .ok content →
      SpecFile.generated b.name content ∈ result := by
  intro bs
  induction bs with
  | nil =>
    intro result b content _ hb
    simp at hb
  | cons hd tl ih =>
    intro result b content hres hb hkeep hcontent
    rw [synthesizeBlocks] at hres
    rcases List.mem_cons.mp hb with rfl | hbtl
    · rw [if_pos hkeep, hcontent] at hres
      cases hrest : synthesizeBlocks common allBlocks onlyBlocks tl with
      | error e =>
        rw [hrest] at hres
        simp at hres
      | ok rest =>
        rw [hrest] at hres
        have : SpecFile.generated b.name content :: rest = result := by
          simpa using hres
        rw [← this]
        exact List.mem_cons_self _ _
    · by_cases hk : keepBlock onlyBlocks hd.name = true
      · rw [if_pos hk] at hres
        cases hc : blockContent common allBlocks hd with
        | error e =>
          rw [hc] at hres
          simp at hres
        | ok c =>
          rw [hc] at hres
          cases hrest : synthesizeBlocks common allBlocks onlyBlocks tl with
          | error e =>
            rw [hrest] at hres
            simp at hres
          | ok rest =>
            rw [hrest] at hres
            have heq : SpecFile.generated hd.name c :: rest = result := by
              simpa using hres
            rw [← heq]
            exact List.mem_cons_of_mem _ (ih rest b content hrest hbtl hkeep hcontent)
      · rw [if_neg hk] at hres
        exact ih result b content hres hbtl hkeep hcontent

/-- For a spec source with blocks, every retained block `b` yields a
synthesized spec whose content is exactly: the common prelude, then —
in declared order — each prerequisite block's contents (headed by its
marker line), then `b`'s own contents (headed by its marker line). -/
theorem retrieveBlocksInSpec_block_content
    (lines onlyBlocks common : List String) (pieces : List (String × List String))
    (blocks : List SpecBlock) (b : SpecBlock) (ds : List String)
    (f : String → SpecBlock) (result : List SpecFile)
    (hsplit : splitBlocksAux lines = (common, pieces))
    (hmk : mkBlocks [] pieces = .ok blocks)
    (hb : b ∈ blocks)
    (hkeep : keepBlock onlyBlocks b.name = true)
    (hdeps : b.dependencies = some ds)
    (hlook : ∀ d ∈ ds, lookupBlock blocks d = some (f d))
    (hres : retrieveBlocksInSpec lines onlyBlocks = .ok result) :
    SpecFile.generated b.name
      (common ++ ds.flatMap (fun d => depMarkerLine (f d).name :: (f d).contents) ++
        (mainMarkerLine b.name :: b.contents)) ∈ result := by
  have hpieces_ne : pieces ≠ [] := by
    intro hp
    subst hp
    have hbl : ([] : List SpecBlock) = blocks := Except.ok.inj hmk
    rw [← hbl] at hb
    simp at hb
  rw [retrieveBlocksInSpec, hsplit] at hres
  dsimp only at hres
  rw [if_neg (by simpa [List.isEmpty_iff] using hpieces_ne), hmk] at hres
  dsimp only at hres
  have hcontent : blockContent common blocks b =
      .ok (common ++ ds.flatMap (fun d => depMarkerLine (f d).name :: (f d).contents) ++
        (mainMarkerLine b.name :: b.contents)) := by
    rw [blockContent, hdeps]
    dsimp only
    rw [depsContent_ok blocks f ds hlook]
  exact synthesizeBlocks_mem common blocks onlyBlocks blocks result b _ hres hb hkeep hcontent

/-- Resolution succeeds with the order `[c, s, y]`; the dependency
`cxYmod` of the second-placed spec `s` is externally available **and**
is the module of a spec scheduled for install in this run (it is
placed, but strictly later than `s`), and `s`'s only earlier neighbour
is `c` — so `cxYmod` is neither "available minus scheduled" nor placed
strictly earlier, refuting the claim as stated. -/
theorem resolveDependencies_schedule_counterexample :
    resolveDependencies [cxTop] (some cxRobot) [cxYmod] =
      .ok [cxCspec.strip, cxTop.strip, cxYspec.strip] ∧
    cxYmod ∈ cxTop.strip.unresolvedDependencies ∧
    cxYmod ∈ [cxYmod] ∧
    cxYmod ∈ [cxCspec.strip, cxTop.strip, cxYspec.strip].map (·.module) ∧
    [cxCspec.strip, cxTop.strip, cxYspec.strip].map (·.module) =
      [cxCmod, cxTopMod, cxYmod] ∧
    cxCspec.strip.module ≠ cxYmod := by
  decide

theorem resolveDependencies_success_sound_witness :
    (∀ s ∈ [wB, wA], s.strip ∈ [wA.strip, wB.strip]) ∧
    (∃ added : List ECSpec,
      List.Perm [wA.strip, wB.strip] (([wB, wA] ++ added).map ECSpec.strip) ∧
      ((none : Option RobotFn) = none → added = []) ∧
      (∀ s ∈ added, ∃ rf c l, (none : Option RobotFn) = some rf ∧
        rf c = some l ∧ s ∈ l)) ∧
    (∀ i : Fin ([wA.strip, wB.strip] : List ECSpec).length,
      ∀ d ∈ (([wA.strip, wB.strip] : List ECSpec).get i).unresolvedDependencies,
        (d ∈ ([] : List ModuleId) ∧ d ∉ [wB, wA].map (·.module)) ∨
        ∃ j : Fin ([wA.strip, wB.strip] : List ECSpec).length,
          j.val < i.val ∧ (([wA.strip, wB.strip] : List ECSpec).get j).module = d) :=
  resolveDependencies_success_sound [wB, wA] none [] [wA.strip, wB.strip]
    (by decide) (fun rf c l h => absurd h (by simp)) (by decide)

theorem resolveDependencies_reports_all_missing_witness :
    resolveDependencies [wF, wG] none [] =
      .error (.depsNotMet (pyDictKeys (([wF, wG].map (·.dependencies)).flatten))) ∧
    (∀ d, d ∈ pyDictKeys (([wF, wG].map (·.dependencies)).flatten) ↔
      ∃ m ∈ [wF, wG], d ∈ m.dependencies) ∧
    (∀ m ∈ [wF, wG], ∀ d ∈ m.dependencies, d ∉ ([] : List ModuleId)) :=
  resolveDependencies_reports_all_missing [wF, wG] none [] [] [wF, wG] []
    (by decide) (fun rf c l h => absurd h (by simp)) (by decide) (by decide)

theorem resolveDependencies_deterministic_witness :
    resolveDependencies [wB, wA] none [] = resolveDependencies [wB, wA] none [] :=
  resolveDependencies_deterministic [wB, wA] [wB, wA] none none [] [] rfl rfl rfl

theorem resolveDependencies_empties_input_witness :
    (∃ pfin, resolveState [wB, wA] none [] = .ok ([wA.strip, wB.strip], [], pfin)) ∧
    (∀ ord' rem' pfin', resolveState [wB, wA] none [] = .ok (ord', rem', pfin') →
      mainCleanupSpecs rem' = []) ∧
    (∀ u p, ∀ s ∈ (findResolvedModules u p).1, s.dependencies = []) ∧
    (∀ u p, ∀ m ∈ (findResolvedModules u p).2.1, ¬ m.dependencies.isEmpty = true) ∧
    (∀ u p, (findResolvedModules u p).1.length + (findResolvedModules u p).2.1.length
      = u.length) :=
  resolveDependencies_empties_input [wB, wA] none [] [wA.strip, wB.strip] (by decide)

theorem robotPass_scan_characterization_witness :
    ∃ l₁ m l₂, ([c4spec1, c4spec2] : List ECSpec) = l₁ ++ m :: l₂ ∧
      (∀ m' ∈ l₁, robotQueryFails c4robot [("s1", "1"), ("s2", "1")] m') ∧
      firstCandidate [("s1", "1"), ("s2", "1")] m = some c4dep2 ∧
      c4robot c4dep2 = some [c4found] ∧
      c4dep2 ∈ [c4found].map (·.module) :=
  (robotPass_scan_characterization c4robot [("s1", "1"), ("s2", "1")]
    [c4spec1, c4spec2]).2 c4dep2 [c4found] (by decide)

theorem retrieveBlocksInSpec_no_headers_witness :
    retrieveBlocksInSpec ["name = 'z'", "version = '1'"] [] = .ok [SpecFile.original] :=
  retrieveBlocksInSpec_no_headers ["name = 'z'", "version = '1'"] [] (by decide)

theorem retrieveBlocksInSpec_block_content_witness :
    SpecFile.generated wBlockB.name
      (["common1"] ++
        (["A"].flatMap (fun d => depMarkerLine ((fun _ => wBlockA) d).name ::
          ((fun _ => wBlockA) d).contents)) ++
        (mainMarkerLine wBlockB.name :: wBlockB.contents)) ∈ wResult :=
  retrieveBlocksInSpec_block_content wLines [] ["common1"]
    [("A", ["contA"]), ("B", ["block=['A']", "contB"])]
    [wBlockA, wBlockB] wBlockB ["A"] (fun _ => wBlockA) wResult
    (by decide) (by decide) (by decide) (by decide) (by decide) (by decide) (by decide)

theorem build_easyconfigs_failure_isolation_witness :
    ((build_easyconfigs wPenv ["p1", "p2", "p3"] wSt).1 = [some 1, some 2, some 3] ∧
     (build_easyconfigs wPenv ["p1", "p2", "p3"] wSt).2.results =
       [⟨.app 2, "configure", "configure failed", "app2.log"⟩] ∧
     (build_easyconfigs wPenv ["p1", "p2", "p3"] wSt).2.successes = [1, 3]) ∧
    ((build_easyconfigs wPenv2 ["p1", "p2", "p3"] wSt).1 = [some 1, none, some 3] ∧
     (build_easyconfigs wPenv2 ["p1", "p2", "p3"] wSt).2.results =
       [⟨.spec "p2", "initialization", "no instance", "main.log"⟩] ∧
     (build_easyconfigs wPenv2 ["p1", "p2", "p3"] wSt).2.successes = [1, 3]) := by
  constructor
  · have h := build_easyconfigs_failure_isolation.1 wPenv ["p1"] ["p3"] "p2" instW wSt
      c2L1 c2L2 "configure" 8 "configure failed"
      (by decide) (by decide) (by decide) (by decide) (by decide) (by decide)
      (by intro a k env; rfl)
    exact ⟨by simpa [wSt] using h.1, by simpa [wSt, wPenv, instW] using h.2.1,
      by simpa [wSt, instW] using h.2.2.2⟩
  · have h := build_easyconfigs_failure_isolation.2 wPenv2 ["p1"] ["p3"] "p2" instW wSt
      "no instance"
      (by decide) (by decide) (by decide) (by decide) (by decide) (by decide)
      (by intro a k env; rfl)
    exact ⟨by simpa [wSt, instW] using h.1, by simpa [wSt, wPenv2] using h.2.1,
      by simpa [wSt, instW] using h.2.2.2⟩

end EasyBuild


